import Mathlib

/-!
# Verification of the Stock-Analysis-Pro indicator engine and backtest simulator

Shallow embedding of the numeric core of `src/app.py`:

* `calculate_technical_indicators` (app.py lines 64-88): RSI(14), MACD(12/26/9)
  and Bollinger Bands(20, 2σ) over a close-price column.
* the "Run Backtest" block (app.py lines 1057-1246): signal generation for the
  four strategies, per-period returns, cumulative equity curves, row dropping,
  and the summary statistics (total return, Sharpe, max drawdown).

Pandas `NaN` entries are modelled as `none : Option ℚ`; every numeric value the
code manipulates is a `ℚ`.  The two places where the source produces an
irrational number (the square root inside the Bollinger/Sharpe standard
deviation and the `√252` annualisation factor) are carried symbolically: the
Bollinger band entries store the pair (middle, sample variance) whose real
value is middle ± 2·√variance, and the Sharpe result stores (mean, sample
variance) whose real value is (mean/√variance)·√252.  The definedness
structure and all rational arithmetic are exact.
-/

/-! ## Generic series operations (pandas primitives) -/

/-- `Series.diff()`: first entry `NaN`, then consecutive differences. -/
def diffL (xs : List ℚ) : List (Option ℚ) :=
  match xs with
  | [] => []
  | _ :: rest => none :: List.zipWith (fun cur prev => some (cur - prev)) rest xs

/-- `Series.rolling(window=w).mean()` on a fully defined series
(`min_periods` defaults to `w`): `NaN` until the window fills. -/
def rollingMean (w : Nat) (xs : List ℚ) : List (Option ℚ) :=
  (List.range xs.length).map (fun i =>
    if i + 1 < w then none
    else some ((((xs.take (i + 1)).drop (i + 1 - w)).foldl (· + ·) 0) / (w : ℚ)))

/-- Arithmetic mean of a list (`Series.mean()` on a defined series). -/
def meanQ (xs : List ℚ) : ℚ := xs.foldl (· + ·) 0 / (xs.length : ℚ)

/-- Sample variance with `ddof = 1` (the square of `Series.std()`).
`none` models the `NaN` that pandas produces for fewer than two
observations; `Series.std()` itself is `√` of this value. -/
def sampleVar (xs : List ℚ) : Option ℚ :=
  if xs.length < 2 then none
  else some (((xs.map (fun x => (x - meanQ xs) ^ 2)).foldl (· + ·) 0) /
    ((xs.length : ℚ) - 1))

/-- `Series.rolling(window=w).std()` squared: rolling sample variance,
`NaN` until the window fills.  The code's band offset is `2·√` of this. -/
def rollingVarS (w : Nat) (xs : List ℚ) : List (Option ℚ) :=
  (List.range xs.length).map (fun i =>
    if i + 1 < w then none
    else sampleVar ((xs.take (i + 1)).drop (i + 1 - w)))

/-- Tail worker for `ewmMean`: `y_t = (1-α)·y_{t-1} + α·x_t`. -/
def ewmFrom (a prev : ℚ) : List ℚ → List ℚ
  | [] => []
  | x :: xs => ((1 - a) * prev + a * x) :: ewmFrom a ((1 - a) * prev + a * x) xs

/-- `Series.ewm(span=s, adjust=False).mean()`: the streaming EMA seeded with
the first observation, smoothing factor `α = 2/(s+1)`. -/
def ewmMean (span : Nat) (xs : List ℚ) : List ℚ :=
  match xs with
  | [] => []
  | x :: rest => x :: ewmFrom (2 / ((span : ℚ) + 1)) x rest

/-- `Series.pct_change()`: `NaN` at the first bar, then `c_t/c_{t-1} - 1`. -/
def pctChange (xs : List ℚ) : List (Option ℚ) :=
  match xs with
  | [] => []
  | _ :: rest => none :: List.zipWith (fun cur prev => some (cur / prev - 1)) rest xs

/-- `Series.shift(1)`: `NaN` at the first bar, then the previous entry. -/
def shiftOne (xs : List α) : List (Option α) :=
  match xs with
  | [] => []
  | _ :: _ => none :: xs.dropLast.map some

/-- Worker for `cumprodSkip`, carrying the running product. -/
def cumprodFrom (acc : ℚ) : List (Option ℚ) → List (Option ℚ)
  | [] => []
  | none :: rest => none :: cumprodFrom acc rest
  | some v :: rest => some (acc * v) :: cumprodFrom (acc * v) rest

/-- `Series.cumprod()` with pandas' default `skipna=True`: `NaN` entries stay
`NaN` and are skipped by the running product. -/
def cumprodSkip (xs : List (Option ℚ)) : List (Option ℚ) := cumprodFrom 1 xs

/-- Row filtering by a boolean mask (the row-selection part of `dropna()`). -/
def filterMask : List Bool → List α → List α
  | true :: bs, x :: xs => x :: filterMask bs xs
  | false :: bs, _ :: xs => filterMask bs xs
  | _, _ => []

/-- `Series.min()` on a nonempty series (the empty case is unreachable in the
guarded code path; `0` is a junk value there). -/
def listMin : List ℚ → ℚ
  | [] => 0
  | x :: xs => xs.foldl min x

/-- Tail worker for `runningMax`, carrying the maximum so far. -/
def runMaxFrom (m : ℚ) : List ℚ → List ℚ
  | [] => []
  | x :: xs => max m x :: runMaxFrom (max m x) xs

/-- `Series.expanding().max()`: running maximum to date. -/
def runningMax : List ℚ → List ℚ
  | [] => []
  | x :: xs => x :: runMaxFrom x xs

/-- Elementwise conjunction of two masks. -/
def andMask (a b : List Bool) : List Bool := List.zipWith (· && ·) a b

/-- Definedness mask of an optional series (`Series.notna()`). -/
def someMask (xs : List (Option ℚ)) : List Bool := xs.map Option.isSome

/-! ## Indicator engine: `calculate_technical_indicators` (app.py 64-88) -/

/-- `delta.where(delta > 0, 0)` — note that the comparison is `False` on the
leading `NaN` of `diff`, so that entry becomes `0`, not `NaN`. -/
def gainRaw (xs : List ℚ) : List ℚ :=
  (diffL xs).map (fun o => match o with
    | some v => if 0 < v then v else 0
    | none => 0)

/-- `-delta.where(delta < 0, 0)`: negated negative deltas, `0` elsewhere
(including the leading `NaN` of `diff`, whose comparison is `False`). -/
def lossRaw (xs : List ℚ) : List ℚ :=
  (diffL xs).map (fun o => match o with
    | some v => if v < 0 then -v else 0
    | none => 0)

/-- `gain`: 14-bar rolling mean of the positive deltas. -/
def gainSm (xs : List ℚ) : List (Option ℚ) := rollingMean 14 (gainRaw xs)

/-- `loss`: 14-bar rolling mean of the negated negative deltas. -/
def lossSm (xs : List ℚ) : List (Option ℚ) := rollingMean 14 (lossRaw xs)

/-- `Series.replace(0, np.nan)`: exact zeros become `NaN`. -/
def replaceZeroNaN (xs : List (Option ℚ)) : List (Option ℚ) :=
  xs.map (fun o => o.bind (fun v => if v = 0 then none else some v))

/-- Elementwise division where either `NaN` operand yields `NaN`. -/
def divOpt (a b : Option ℚ) : Option ℚ :=
  a.bind fun x => b.map fun y => x / y

/-- `rs = gain / loss.replace(0, np.nan)`: the divisor series is the
zero-scrubbed smoothed loss, so the division never sees a zero divisor. -/
def rsSeries (xs : List ℚ) : List (Option ℚ) :=
  List.zipWith divOpt (gainSm xs) (replaceZeroNaN (lossSm xs))

/-- `RSI = 100 - (100 / (1 + rs))`. -/
def rsiSeries (xs : List ℚ) : List (Option ℚ) :=
  (rsSeries xs).map (Option.map (fun r => 100 - 100 / (1 + r)))

/-- `MACD = close.ewm(span=12).mean() - close.ewm(span=26).mean()`
(both with `adjust=False`); fully defined from the first bar. -/
def macdLine (xs : List ℚ) : List ℚ :=
  List.zipWith (fun a b => a - b) (ewmMean 12 xs) (ewmMean 26 xs)

/-- `MACD_Signal = MACD.ewm(span=9, adjust=False).mean()`. -/
def macdSignalLine (xs : List ℚ) : List ℚ := ewmMean 9 (macdLine xs)

/-- `MACD_Hist = MACD - MACD_Signal`. -/
def macdHist (xs : List ℚ) : List ℚ :=
  List.zipWith (fun a b => a - b) (macdLine xs) (macdSignalLine xs)

/-- `BB_Middle = close.rolling(20).mean()`. -/
def bbMiddle (xs : List ℚ) : List (Option ℚ) := rollingMean 20 xs

/-- The squared 20-bar rolling std used by the bands. -/
def bbVarS (xs : List ℚ) : List (Option ℚ) := rollingVarS 20 xs

/-- `BB_Upper = BB_Middle + 2 * std`: an entry `(m, v)` denotes the real
value `m + 2·√v`; `NaN` exactly where middle or std is `NaN`. -/
def bbUpper (xs : List ℚ) : List (Option (ℚ × ℚ)) :=
  List.zipWith (fun m v => match m, v with
    | some mv, some vv => some (mv, vv)
    | _, _ => none) (bbMiddle xs) (bbVarS xs)

/-- `BB_Lower = BB_Middle - 2 * std`: an entry `(m, v)` denotes the real
value `m - 2·√v`; `NaN` exactly where middle or std is `NaN`. -/
def bbLower (xs : List ℚ) : List (Option (ℚ × ℚ)) :=
  List.zipWith (fun m v => match m, v with
    | some mv, some vv => some (mv, vv)
    | _, _ => none) (bbMiddle xs) (bbVarS xs)

/-- A date-indexed price table: the shared row index plus named numeric
columns (the close column is looked up by name, as in the code). -/
structure PriceTable where
  dates : List Int
  cols : List (String × List ℚ)
deriving DecidableEq

/-- Column lookup (`df[close_col]`); `none` models the pandas `KeyError`. -/
def lookupCol (cols : List (String × List ℚ)) (name : String) : Option (List ℚ) :=
  (cols.find? (fun p => p.1 == name)).map Prod.snd

/-- The augmented table returned by `calculate_technical_indicators`: the
copied input plus the derived indicator columns. -/
structure IndicatorTable where
  dates : List Int
  origCols : List (String × List ℚ)
  RSI : List (Option ℚ)
  MACD : List ℚ
  MACD_Signal : List ℚ
  MACD_Hist : List ℚ
  BB_Middle : List (Option ℚ)
  BB_Upper : List (Option (ℚ × ℚ))
  BB_Lower : List (Option (ℚ × ℚ))
deriving DecidableEq

/-- Failure of the indicator engine: the `KeyError` raised by
`df_copy[close_col]` when the chosen column is absent. -/
inductive CalcError where
  | invalidInput
deriving DecidableEq

/-- `calculate_technical_indicators(df, close_col)` (app.py 64-88): copies the
input and appends RSI, MACD family, and Bollinger columns derived from the
chosen close column; raises (`.error`) only when the column is absent. -/
def calculate_technical_indicators (df : PriceTable) (close_col : String) :
    Except CalcError IndicatorTable :=
  match lookupCol df.cols close_col with
  | none => .error .invalidInput
  | some close => .ok
      { dates := df.dates
        origCols := df.cols
        RSI := rsiSeries close
        MACD := macdLine close
        MACD_Signal := macdSignalLine close
        MACD_Hist := macdHist close
        BB_Middle := bbMiddle close
        BB_Upper := bbUpper close
        BB_Lower := bbLower close }

/-! ## Backtest simulator: the "Run Backtest" block (app.py 1057-1246) -/

/-- The four strategies of the selectbox (app.py 1049-1052). -/
inductive Strategy where
  | smaCross20_50
  | smaCross50_200
  | rsiMeanRev
  | macdCross
deriving DecidableEq

/-- `SMA_Fast > SMA_Slow` with pandas semantics: any `NaN` compares `False`. -/
def gtOpt (a b : Option ℚ) : Bool :=
  match a, b with
  | some x, some y => y < x
  | _, _ => false

/-- `RSI < 30` with pandas semantics: `NaN` compares `False`. -/
def ltOptC (a : Option ℚ) (c : ℚ) : Bool :=
  match a with
  | some x => x < c
  | none => false

/-- `RSI > 70` with pandas semantics: `NaN` compares `False`. -/
def gtOptC (a : Option ℚ) (c : ℚ) : Bool :=
  match a with
  | some x => c < x
  | none => false

/-- The per-bar `Signal` column (app.py 1061-1093): default `0`, set to `1`
(or `-1` for the RSI strategy) where the strategy's condition holds; a `NaN`
indicator never triggers a condition. -/
def stratSignal : Strategy → List ℚ → List Int
  | .smaCross20_50, close =>
      List.zipWith (fun f s => if gtOpt f s then 1 else 0)
        (rollingMean 20 close) (rollingMean 50 close)
  | .smaCross50_200, close =>
      List.zipWith (fun f s => if gtOpt f s then 1 else 0)
        (rollingMean 50 close) (rollingMean 200 close)
  | .rsiMeanRev, close =>
      (rsiSeries close).map (fun r =>
        if ltOptC r 30 then 1 else if gtOptC r 70 then -1 else 0)
  | .macdCross, close =>
      List.zipWith (fun m s => if s < m then 1 else 0)
        (macdLine close) (macdSignalLine close)

/-- Per-row definedness of the indicator columns the strategy branch adds to
`bt_data` (they take part in the later `dropna()`): the SMA pair for the SMA
strategies, RSI for the RSI strategy, and the always-defined MACD pair. -/
def stratExtraDef : Strategy → List ℚ → List Bool
  | .smaCross20_50, close =>
      andMask (someMask (rollingMean 20 close)) (someMask (rollingMean 50 close))
  | .smaCross50_200, close =>
      andMask (someMask (rollingMean 50 close)) (someMask (rollingMean 200 close))
  | .rsiMeanRev, close => someMask (rsiSeries close)
  | .macdCross, close => close.map (fun _ => true)

/-- `Signal.shift(1) * Returns` at one bar: `NaN` if either operand is. -/
def mulSigOpt (s : Option Int) (r : Option ℚ) : Option ℚ :=
  match s, r with
  | some z, some v => some ((z : ℚ) * v)
  | _, _ => none

/-- The derived columns of `bt_data` before `dropna()` (app.py 1061-1099). -/
structure BTCols where
  signal : List Int
  extraDef : List Bool
  returns : List (Option ℚ)
  stratRet : List (Option ℚ)
  cumMarket : List (Option ℚ)
  cumStrat : List (Option ℚ)

/-- Builds the `bt_data` columns: signals, `Returns = close.pct_change()`,
`Strategy_Returns = Signal.shift(1) * Returns`, and both cumulative
product curves, all before any row is dropped (app.py 1061-1099). -/
def btCols (strat : Strategy) (close : List ℚ) : BTCols :=
  { signal := stratSignal strat close
    extraDef := stratExtraDef strat close
    returns := pctChange close
    stratRet := List.zipWith mulSigOpt (shiftOne (stratSignal strat close)) (pctChange close)
    cumMarket := cumprodSkip ((pctChange close).map (Option.map (fun r => 1 + r)))
    cumStrat := cumprodSkip
      ((List.zipWith mulSigOpt (shiftOne (stratSignal strat close)) (pctChange close)).map
        (Option.map (fun r => 1 + r))) }

/-- The row mask of `bt_data.dropna()` (app.py 1101): a row survives iff every
derived column is defined there (`Signal` and the close itself always are). -/
def dropnaMask (C : BTCols) : List Bool :=
  andMask C.extraDef (andMask (someMask C.returns) (andMask (someMask C.stratRet)
    (andMask (someMask C.cumMarket) (someMask C.cumStrat))))

/-- Reported Sharpe ratio (app.py 1110-1111).  `nan` models the float `NaN`
that `(mean/std)*sqrt(252)` yields when `std` itself is `NaN` (fewer than two
observations, since `NaN != 0` is `True` in the guard); `zero` is the
guarded `else 0`; `annualized mean var` denotes the real number
`(mean/√var)·√252` for a nonzero sample variance `var`. -/
inductive SharpeResult where
  | nan
  | zero
  | annualized (mean var : ℚ)
deriving DecidableEq

/-- `(r.mean() / r.std()) * np.sqrt(252) if r.std() != 0 else 0` over the
cleaned return column `r` (app.py 1110-1111), with `std = √sampleVar`. -/
def sharpeOf (rets : List ℚ) : SharpeResult :=
  match sampleVar rets with
  | none => .nan
  | some v => if v = 0 then .zero else .annualized (meanQ rets) v

/-- `((cum - cum.expanding().max()) / cum.expanding().max()).min() * 100`
(app.py 1113-1119). -/
def maxDrawdownPct (v : List ℚ) : ℚ :=
  listMin (List.zipWith (fun c m => (c - m) / m) v (runningMax v)) * 100

/-- `InsufficientHistory`: every row was dropped by `dropna()`, so the code
shows the "Not enough data" warning instead of statistics (app.py 1246). -/
inductive BTError where
  | insufficientHistory
deriving DecidableEq

/-- The outputs reported by the backtest block (app.py 1104-1119 and the two
equity curves plotted from the cleaned `bt_data`). -/
structure BacktestResult where
  cumMarket : List ℚ
  cumStrat : List ℚ
  totalReturnMarket : ℚ
  totalReturnStrategy : ℚ
  finalCapitalMarket : ℚ
  finalCapitalStrategy : ℚ
  sharpeMarket : SharpeResult
  sharpeStrategy : SharpeResult
  maxDrawdownMarket : ℚ
  maxDrawdownStrategy : ℚ
deriving DecidableEq

/-- The cleaned `Returns` column (after `dropna()`). -/
def cleanedReturns (strat : Strategy) (close : List ℚ) : List ℚ :=
  (filterMask (dropnaMask (btCols strat close)) (btCols strat close).returns).reduceOption

/-- The cleaned `Strategy_Returns` column (after `dropna()`). -/
def cleanedStratRet (strat : Strategy) (close : List ℚ) : List ℚ :=
  (filterMask (dropnaMask (btCols strat close)) (btCols strat close).stratRet).reduceOption

/-- The cleaned `Cumulative_Market` column (after `dropna()`). -/
def cleanedCumMarket (strat : Strategy) (close : List ℚ) : List ℚ :=
  (filterMask (dropnaMask (btCols strat close)) (btCols strat close).cumMarket).reduceOption

/-- The cleaned `Cumulative_Strategy` column (after `dropna()`). -/
def cleanedCumStrat (strat : Strategy) (close : List ℚ) : List ℚ :=
  (filterMask (dropnaMask (btCols strat close)) (btCols strat close).cumStrat).reduceOption

/-- The "Run Backtest" block as a function: builds the derived columns,
drops undefined rows, and either warns (`InsufficientHistory`) when nothing
remains or reports the statistics of app.py 1104-1119. -/
def runBacktest (close : List ℚ) (strat : Strategy) (capital : ℚ) :
    Except BTError BacktestResult :=
  if cleanedReturns strat close = [] then .error .insufficientHistory
  else .ok
    { cumMarket := cleanedCumMarket strat close
      cumStrat := cleanedCumStrat strat close
      totalReturnMarket := (((cleanedCumMarket strat close).getLast?).getD 0 - 1) * 100
      totalReturnStrategy := (((cleanedCumStrat strat close).getLast?).getD 0 - 1) * 100
      finalCapitalMarket := capital * ((cleanedCumMarket strat close).getLast?).getD 0
      finalCapitalStrategy := capital * ((cleanedCumStrat strat close).getLast?).getD 0
      sharpeMarket := sharpeOf (cleanedReturns strat close)
      sharpeStrategy := sharpeOf (cleanedStratRet strat close)
      maxDrawdownMarket := maxDrawdownPct (cleanedCumMarket strat close)
      maxDrawdownStrategy := maxDrawdownPct (cleanedCumStrat strat close) }

/-! ## Auxiliary definitions for the statements -/

/-- The definedness mask of a one-bar-lagged column over `n` bars:
undefined at the first bar, defined afterwards. -/
def falseThenTrue : Nat → List Bool
  | 0 => []
  | n + 1 => false :: List.replicate n true

/-- Boolean test that a series is non-decreasing throughout. -/
def nonDecB : List ℚ → Bool
  | [] => true
  | [_] => true
  | x :: y :: rest => decide (x ≤ y) && nonDecB (y :: rest)

/-- `xs` is non-decreasing and starts no lower than `m` (the running maximum
seeded at `m` is attained at every bar). -/
def leChainFrom (m : ℚ) : List ℚ → Prop
  | [] => True
  | x :: xs => m ≤ x ∧ leChainFrom x xs

/-- Plain running product of a fully defined series. -/
def cumprodStrict (acc : ℚ) : List ℚ → List ℚ
  | [] => []
  | x :: xs => acc * x :: cumprodStrict (acc * x) xs

/-- Modelled from the spec: the market equity curve the specification
describes — "rows with any undefined input to this chain are dropped before
computing cumulative products", then "running product of (1 + per-period
return), re-based to 1.0 at the first valid (retained) bar".  Used only to
compare the specified curve with the one the code computes. -/
def specRebasedMarketCurve (strat : Strategy) (close : List ℚ) : List ℚ :=
  cumprodStrict 1 ((cleanedReturns strat close).map (fun r => 1 + r))

/-- Projection of a backtest outcome onto the reported market equity curve. -/
def btCumMarket? (e : Except BTError BacktestResult) : Option (List ℚ) :=
  match e with
  | .ok r => some r.cumMarket
  | .error _ => none

/-- Projection of a backtest outcome onto the reported market Sharpe value. -/
def btSharpeMarket? (e : Except BTError BacktestResult) : Option SharpeResult :=
  match e with
  | .ok r => some r.sharpeMarket
  | .error _ => none

/-! ## Shape lemmas: every derived series is aligned 1:1 with its source -/

theorem length_diffL (xs : List ℚ) : (diffL xs).length = xs.length := by
  cases xs with
  | nil => rfl
  | cons x rest =>
      simp [diffL, List.length_zipWith]

theorem length_rollingMean (w : Nat) (xs : List ℚ) :
    (rollingMean w xs).length = xs.length := by
  simp [rollingMean]

theorem length_rollingVarS (w : Nat) (xs : List ℚ) :
    (rollingVarS w xs).length = xs.length := by
  simp [rollingVarS]

theorem length_ewmFrom (a p : ℚ) (xs : List ℚ) :
    (ewmFrom a p xs).length = xs.length := by
  induction xs generalizing p with
  | nil => rfl
  | cons x rest ih => simp [ewmFrom, ih]

theorem length_ewmMean (span : Nat) (xs : List ℚ) :
    (ewmMean span xs).length = xs.length := by
  cases xs with
  | nil => rfl
  | cons x rest => simp [ewmMean, length_ewmFrom]

theorem length_pctChange (xs : List ℚ) : (pctChange xs).length = xs.length := by
  cases xs with
  | nil => rfl
  | cons x rest => simp [pctChange, List.length_zipWith]

theorem length_shiftOne (xs : List α) : (shiftOne xs).length = xs.length := by
  cases xs with
  | nil => rfl
  | cons x rest => simp [shiftOne]

theorem length_cumprodFrom (acc : ℚ) (xs : List (Option ℚ)) :
    (cumprodFrom acc xs).length = xs.length := by
  induction xs generalizing acc with
  | nil => rfl
  | cons o rest ih =>
      cases o with
      | none => simp [cumprodFrom, ih]
      | some v => simp [cumprodFrom, ih]

theorem length_cumprodSkip (xs : List (Option ℚ)) :
    (cumprodSkip xs).length = xs.length := length_cumprodFrom 1 xs

theorem length_gainRaw (xs : List ℚ) : (gainRaw xs).length = xs.length := by
  simp [gainRaw, length_diffL]

theorem length_lossRaw (xs : List ℚ) : (lossRaw xs).length = xs.length := by
  simp [lossRaw, length_diffL]

theorem length_gainSm (xs : List ℚ) : (gainSm xs).length = xs.length := by
  simp [gainSm, length_rollingMean, length_gainRaw]

theorem length_lossSm (xs : List ℚ) : (lossSm xs).length = xs.length := by
  simp [lossSm, length_rollingMean, length_lossRaw]

theorem length_replaceZeroNaN (xs : List (Option ℚ)) :
    (replaceZeroNaN xs).length = xs.length := by
  simp [replaceZeroNaN]

theorem length_rsSeries (xs : List ℚ) : (rsSeries xs).length = xs.length := by
  simp [rsSeries, List.length_zipWith, length_gainSm, length_replaceZeroNaN, length_lossSm]

theorem length_rsiSeries (xs : List ℚ) : (rsiSeries xs).length = xs.length := by
  simp [rsiSeries, length_rsSeries]

theorem length_macdLine (xs : List ℚ) : (macdLine xs).length = xs.length := by
  simp [macdLine, List.length_zipWith, length_ewmMean]

theorem length_macdSignalLine (xs : List ℚ) :
    (macdSignalLine xs).length = xs.length := by
  simp [macdSignalLine, length_ewmMean, length_macdLine]

theorem length_macdHist (xs : List ℚ) : (macdHist xs).length = xs.length := by
  simp [macdHist, List.length_zipWith, length_macdLine, length_macdSignalLine]

theorem length_bbMiddle (xs : List ℚ) : (bbMiddle xs).length = xs.length := by
  simp [bbMiddle, length_rollingMean]

theorem length_bbVarS (xs : List ℚ) : (bbVarS xs).length = xs.length := by
  simp [bbVarS, length_rollingVarS]

theorem length_bbUpper (xs : List ℚ) : (bbUpper xs).length = xs.length := by
  simp [bbUpper, List.length_zipWith, length_bbMiddle, length_bbVarS]

theorem length_bbLower (xs : List ℚ) : (bbLower xs).length = xs.length := by
  simp [bbLower, List.length_zipWith, length_bbMiddle, length_bbVarS]

theorem length_someMask (xs : List (Option ℚ)) : (someMask xs).length = xs.length := by
  simp [someMask]

theorem length_andMask (a b : List Bool) :
    (andMask a b).length = min a.length b.length := by
  simp [andMask, List.length_zipWith]

theorem length_stratSignal (strat : Strategy) (close : List ℚ) :
    (stratSignal strat close).length = close.length := by
  cases strat <;>
    simp [stratSignal, List.length_zipWith, length_rollingMean, length_rsiSeries,
      length_macdLine, length_macdSignalLine]

theorem length_stratExtraDef (strat : Strategy) (close : List ℚ) :
    (stratExtraDef strat close).length = close.length := by
  cases strat <;>
    simp [stratExtraDef, length_andMask, length_someMask, length_rollingMean,
      length_rsiSeries]

theorem length_btReturns (strat : Strategy) (close : List ℚ) :
    (btCols strat close).returns.length = close.length := by
  simp [btCols, length_pctChange]

theorem length_btStratRet (strat : Strategy) (close : List ℚ) :
    (btCols strat close).stratRet.length = close.length := by
  simp [btCols, List.length_zipWith, length_shiftOne, length_stratSignal, length_pctChange]

theorem length_btCumMarket (strat : Strategy) (close : List ℚ) :
    (btCols strat close).cumMarket.length = close.length := by
  simp [btCols, length_cumprodSkip, length_pctChange]

theorem length_btCumStrat (strat : Strategy) (close : List ℚ) :
    (btCols strat close).cumStrat.length = close.length := by
  simp [btCols, length_cumprodSkip, List.length_zipWith, length_shiftOne,
    length_stratSignal, length_pctChange]

theorem length_dropnaMask (strat : Strategy) (close : List ℚ) :
    (dropnaMask (btCols strat close)).length = close.length := by
  simp [dropnaMask, length_andMask, length_someMask, btCols, length_stratExtraDef,
    length_pctChange, length_cumprodSkip, List.length_zipWith, length_shiftOne,
    length_stratSignal]

/-! ## Pointwise lemmas on the series primitives -/

theorem rollingMean_getElem? (w : Nat) (xs : List ℚ) (i : Nat) (h : i < xs.length) :
    (rollingMean w xs)[i]? =
      some (if i + 1 < w then none
        else some ((((xs.take (i + 1)).drop (i + 1 - w)).foldl (· + ·) 0) / (w : ℚ))) := by
  simp [rollingMean, List.getElem?_map, List.getElem?_range, h]

theorem rollingMean_getElem?_none (w : Nat) (xs : List ℚ) (i : Nat)
    (h : i < xs.length) (hw : i + 1 < w) : (rollingMean w xs)[i]? = some none := by
  rw [rollingMean_getElem? w xs i h, if_pos hw]

theorem someMask_getElem? (xs : List (Option ℚ)) (i : Nat) :
    (someMask xs)[i]? = (xs[i]?).map Option.isSome := by
  simp [someMask, List.getElem?_map]

theorem andMask_getElem? (a b : List Bool) (i : Nat) (x y : Bool)
    (hx : a[i]? = some x) (hy : b[i]? = some y) :
    (andMask a b)[i]? = some (x && y) := by
  simp [andMask, List.getElem?_zipWith, hx, hy]

theorem pctChange_getElem?_zero (xs : List ℚ) (h : xs ≠ []) :
    (pctChange xs)[0]? = some none := by
  cases xs with
  | nil => exact absurd rfl h
  | cons x rest => simp [pctChange]

theorem pctChange_getElem?_succ (xs : List ℚ) (t : Nat) (cp cc : ℚ)
    (hp : xs[t]? = some cp) (hc : xs[t + 1]? = some cc) :
    (pctChange xs)[t + 1]? = some (some (cc / cp - 1)) := by
  cases xs with
  | nil => simp at hp
  | cons x rest =>
      have hrest : rest[t]? = some cc := by
        simpa using hc
      simp [pctChange, List.getElem?_zipWith, hrest, hp]

theorem shiftOne_getElem?_zero (xs : List α) (h : xs ≠ []) :
    (shiftOne xs)[0]? = some none := by
  cases xs with
  | nil => exact absurd rfl h
  | cons x rest => simp [shiftOne]

theorem shiftOne_getElem?_succ (xs : List α) (t : Nat) (v : α)
    (hv : xs[t]? = some v) (ht : t + 1 < xs.length) :
    (shiftOne xs)[t + 1]? = some (some v) := by
  cases xs with
  | nil => simp at hv
  | cons x rest =>
      have hlt : t < (x :: rest).length - 1 := by
        simpa using ht
      have hd : (x :: rest).dropLast[t]? = some v := by
        rw [List.getElem?_dropLast, if_pos hlt]; exact hv
      show (none :: (x :: rest).dropLast.map some)[t + 1]? = some (some v)
      rw [List.getElem?_cons_succ, List.getElem?_map, hd]
      rfl

theorem someMask_cumprodFrom (acc : ℚ) (xs : List (Option ℚ)) :
    someMask (cumprodFrom acc xs) = someMask xs := by
  induction xs generalizing acc with
  | nil => rfl
  | cons o rest ih =>
      cases o with
      | none =>
          have h2 := ih acc
          simp [cumprodFrom, someMask] at h2 ⊢
          exact h2
      | some v =>
          have h2 := ih (acc * v)
          simp [cumprodFrom, someMask] at h2 ⊢
          exact h2

theorem ewmMean_getElem?_zero (span : Nat) (xs : List ℚ) :
    (ewmMean span xs)[0]? = xs[0]? := by
  cases xs with
  | nil => rfl
  | cons x rest => simp [ewmMean]

theorem macdLine_getElem?_zero (xs : List ℚ) (c : ℚ) (h : xs[0]? = some c) :
    (macdLine xs)[0]? = some 0 := by
  have h12 : (ewmMean 12 xs)[0]? = some c := by rw [ewmMean_getElem?_zero]; exact h
  have h26 : (ewmMean 26 xs)[0]? = some c := by rw [ewmMean_getElem?_zero]; exact h
  simp [macdLine, List.getElem?_zipWith, h12, h26]

theorem macdSignalLine_getElem?_zero (xs : List ℚ) (c : ℚ) (h : xs[0]? = some c) :
    (macdSignalLine xs)[0]? = some 0 := by
  rw [macdSignalLine, ewmMean_getElem?_zero]
  exact macdLine_getElem?_zero xs c h

theorem someMask_mapOptionMap (f : ℚ → ℚ) (xs : List (Option ℚ)) :
    someMask (xs.map (Option.map f)) = someMask xs := by
  simp [someMask, List.map_map]

theorem pctChange_isSome_succ (xs : List ℚ) (t : Nat) (ht : t + 1 < xs.length) :
    ∃ v, (pctChange xs)[t + 1]? = some (some v) := by
  obtain ⟨cp, hp⟩ : ∃ cp, xs[t]? = some cp :=
    ⟨_, List.getElem?_eq_getElem (Nat.lt_of_succ_lt ht)⟩
  obtain ⟨cc, hc⟩ : ∃ cc, xs[t + 1]? = some cc := ⟨_, List.getElem?_eq_getElem ht⟩
  exact ⟨_, pctChange_getElem?_succ xs t _ _ hp hc⟩

theorem btStratRet_zero (strat : Strategy) (close : List ℚ) (h : close ≠ []) :
    (btCols strat close).stratRet[0]? = some none := by
  have hsig : stratSignal strat close ≠ [] := by
    intro hnil
    have := length_stratSignal strat close
    rw [hnil] at this
    exact h (List.length_eq_zero.mp this.symm)
  have h1 : (shiftOne (stratSignal strat close))[0]? = some none :=
    shiftOne_getElem?_zero _ hsig
  have h2 : (pctChange close)[0]? = some none := pctChange_getElem?_zero close h
  simp [btCols, List.getElem?_zipWith, h1, h2, mulSigOpt]

theorem btStratRet_succ (strat : Strategy) (close : List ℚ) (t : Nat)
    (ht : t + 1 < close.length) (s : Int) (hs : (stratSignal strat close)[t]? = some s)
    (cp cc : ℚ) (hp : close[t]? = some cp) (hc : close[t + 1]? = some cc) :
    (btCols strat close).stratRet[t + 1]? = some (some ((s : ℚ) * (cc / cp - 1))) := by
  have hlen : t + 1 < (stratSignal strat close).length := by
    rw [length_stratSignal]; exact ht
  have h1 : (shiftOne (stratSignal strat close))[t + 1]? = some (some s) :=
    shiftOne_getElem?_succ _ t s hs hlen
  have h2 : (pctChange close)[t + 1]? = some (some (cc / cp - 1)) :=
    pctChange_getElem?_succ close t cp cc hp hc
  simp [btCols, List.getElem?_zipWith, h1, h2, mulSigOpt]

theorem btStratRet_succ_isSome (strat : Strategy) (close : List ℚ) (t : Nat)
    (ht : t + 1 < close.length) :
    ∃ v, (btCols strat close).stratRet[t + 1]? = some (some v) := by
  have hts : t < (stratSignal strat close).length := by
    rw [length_stratSignal]; exact Nat.lt_of_succ_lt ht
  obtain ⟨sv, hs⟩ : ∃ sv, (stratSignal strat close)[t]? = some sv :=
    ⟨_, List.getElem?_eq_getElem hts⟩
  obtain ⟨cp, hp⟩ : ∃ cp, close[t]? = some cp :=
    ⟨_, List.getElem?_eq_getElem (Nat.lt_of_succ_lt ht)⟩
  obtain ⟨cc, hc⟩ : ∃ cc, close[t + 1]? = some cc := ⟨_, List.getElem?_eq_getElem ht⟩
  exact ⟨_, btStratRet_succ strat close t ht _ hs _ _ hp hc⟩

theorem someMask_btCumMarket (strat : Strategy) (close : List ℚ) :
    someMask (btCols strat close).cumMarket = someMask (btCols strat close).returns := by
  show someMask (cumprodSkip _) = _
  rw [cumprodSkip, someMask_cumprodFrom, someMask_mapOptionMap]
  rfl

theorem someMask_btCumStrat (strat : Strategy) (close : List ℚ) :
    someMask (btCols strat close).cumStrat = someMask (btCols strat close).stratRet := by
  show someMask (cumprodSkip _) = _
  rw [cumprodSkip, someMask_cumprodFrom, someMask_mapOptionMap]
  rfl

theorem dropnaMask_zero (strat : Strategy) (close : List ℚ) (h : 0 < close.length) :
    (dropnaMask (btCols strat close))[0]? = some false := by
  have hne : close ≠ [] := List.length_pos.mp h
  have hE : ∃ e, (stratExtraDef strat close)[0]? = some e := by
    have hb : 0 < (stratExtraDef strat close).length := by
      rw [length_stratExtraDef]; exact h
    exact ⟨_, List.getElem?_eq_getElem hb⟩
  obtain ⟨e, he⟩ := hE
  have hR : (someMask (btCols strat close).returns)[0]? = some false := by
    rw [someMask_getElem?]
    have : (btCols strat close).returns[0]? = some none := pctChange_getElem?_zero close hne
    rw [this]
    rfl
  have hS : (someMask (btCols strat close).stratRet)[0]? = some false := by
    rw [someMask_getElem?, btStratRet_zero strat close hne]
    rfl
  have hCM : (someMask (btCols strat close).cumMarket)[0]? = some false := by
    rw [someMask_btCumMarket]; exact hR
  have hCS : (someMask (btCols strat close).cumStrat)[0]? = some false := by
    rw [someMask_btCumStrat]; exact hS
  have h1 := andMask_getElem? _ _ 0 false false hCM hCS
  have h2 := andMask_getElem? _ _ 0 false (false && false) hS h1
  have h3 := andMask_getElem? _ _ 0 false (false && (false && false)) hR h2
  have h4 := andMask_getElem? _ _ 0 e (false && (false && (false && false))) he h3
  have hbe : (btCols strat close).extraDef = stratExtraDef strat close := rfl
  rw [dropnaMask, hbe, h4]
  simp

theorem dropnaMask_succ (strat : Strategy) (close : List ℚ) (t : Nat)
    (ht : t + 1 < close.length) (e : Bool)
    (he : (stratExtraDef strat close)[t + 1]? = some e) :
    (dropnaMask (btCols strat close))[t + 1]? = some e := by
  obtain ⟨rv, hrv⟩ := pctChange_isSome_succ close t ht
  have hR : (someMask (btCols strat close).returns)[t + 1]? = some true := by
    rw [someMask_getElem?]
    show ((pctChange close)[t + 1]?).map Option.isSome = some true
    rw [hrv]
    rfl
  obtain ⟨sv, hsv⟩ := btStratRet_succ_isSome strat close t ht
  have hS : (someMask (btCols strat close).stratRet)[t + 1]? = some true := by
    rw [someMask_getElem?, hsv]
    rfl
  have hCM : (someMask (btCols strat close).cumMarket)[t + 1]? = some true := by
    rw [someMask_btCumMarket]; exact hR
  have hCS : (someMask (btCols strat close).cumStrat)[t + 1]? = some true := by
    rw [someMask_btCumStrat]; exact hS
  have h1 := andMask_getElem? _ _ (t + 1) true true hCM hCS
  have h2 := andMask_getElem? _ _ (t + 1) true (true && true) hS h1
  have h3 := andMask_getElem? _ _ (t + 1) true (true && (true && true)) hR h2
  have h4 := andMask_getElem? _ _ (t + 1) e
    (true && (true && (true && true))) he h3
  have hbe : (btCols strat close).extraDef = stratExtraDef strat close := rfl
  rw [dropnaMask, hbe, h4]
  simp

theorem rsiSeries_getElem?_none (xs : List ℚ) (k : Nat) (hk : k < xs.length)
    (h13 : k + 1 < 14) : (rsiSeries xs)[k]? = some none := by
  have hg : (gainSm xs)[k]? = some none := by
    apply rollingMean_getElem?_none 14 (gainRaw xs) k _ h13
    rw [length_gainRaw]; exact hk
  have hlb : k < (replaceZeroNaN (lossSm xs)).length := by
    rw [length_replaceZeroNaN, length_lossSm]; exact hk
  obtain ⟨lv, hlv⟩ : ∃ lv, (replaceZeroNaN (lossSm xs))[k]? = some lv :=
    ⟨_, List.getElem?_eq_getElem hlb⟩
  have hrs : (rsSeries xs)[k]? = some none := by
    simp [rsSeries, List.getElem?_zipWith, hg, hlv, divOpt]
  simp [rsiSeries, List.getElem?_map, hrs]

theorem stratSignal_eq_zero (strat : Strategy) (close : List ℚ) (k : Nat)
    (hk : k < close.length)
    (hm : (dropnaMask (btCols strat close))[k]? = some false) :
    (stratSignal strat close)[k]? = some 0 := by
  cases k with
  | zero =>
      cases strat with
      | smaCross20_50 =>
          have hf : (rollingMean 20 close)[0]? = some none :=
            rollingMean_getElem?_none 20 close 0 hk (by omega)
          have hs : (rollingMean 50 close)[0]? = some none :=
            rollingMean_getElem?_none 50 close 0 hk (by omega)
          simp [stratSignal, List.getElem?_zipWith, hf, hs, gtOpt]
      | smaCross50_200 =>
          have hf : (rollingMean 50 close)[0]? = some none :=
            rollingMean_getElem?_none 50 close 0 hk (by omega)
          have hs : (rollingMean 200 close)[0]? = some none :=
            rollingMean_getElem?_none 200 close 0 hk (by omega)
          simp [stratSignal, List.getElem?_zipWith, hf, hs, gtOpt]
      | rsiMeanRev =>
          have hr : (rsiSeries close)[0]? = some none :=
            rsiSeries_getElem?_none close 0 hk (by omega)
          simp [stratSignal, List.getElem?_map, hr, ltOptC, gtOptC]
      | macdCross =>
          obtain ⟨c, hc⟩ : ∃ c, close[0]? = some c := ⟨_, List.getElem?_eq_getElem hk⟩
          have hml : (macdLine close)[0]? = some 0 := macdLine_getElem?_zero close c hc
          have hms : (macdSignalLine close)[0]? = some 0 :=
            macdSignalLine_getElem?_zero close c hc
          simp [stratSignal, List.getElem?_zipWith, hml, hms]
  | succ t =>
      have hbound : t + 1 < (stratExtraDef strat close).length := by
        rw [length_stratExtraDef]; exact hk
      obtain ⟨e, he⟩ : ∃ e, (stratExtraDef strat close)[t + 1]? = some e :=
        ⟨_, List.getElem?_eq_getElem hbound⟩
      have hme := dropnaMask_succ strat close t hk e he
      rw [hm] at hme
      have hef : e = false := (Option.some_inj.mp hme).symm
      subst hef
      cases strat with
      | smaCross20_50 =>
          have hfb : t + 1 < (rollingMean 20 close).length := by
            rw [length_rollingMean]; exact hk
          have hsb : t + 1 < (rollingMean 50 close).length := by
            rw [length_rollingMean]; exact hk
          obtain ⟨fo, hfo⟩ : ∃ fo, (rollingMean 20 close)[t + 1]? = some fo :=
            ⟨_, List.getElem?_eq_getElem hfb⟩
          obtain ⟨so, hso⟩ : ∃ so, (rollingMean 50 close)[t + 1]? = some so :=
            ⟨_, List.getElem?_eq_getElem hsb⟩
          have hmf : (someMask (rollingMean 20 close))[t + 1]? = some fo.isSome := by
            rw [someMask_getElem?, hfo]; rfl
          have hms : (someMask (rollingMean 50 close))[t + 1]? = some so.isSome := by
            rw [someMask_getElem?, hso]; rfl
          have hand := andMask_getElem? _ _ (t + 1) fo.isSome so.isSome hmf hms
          rw [stratExtraDef] at he
          rw [he] at hand
          have hff : (fo.isSome && so.isSome) = false := (Option.some_inj.mp hand).symm
          have hor : fo = none ∨ so = none := by
            cases fo <;> cases so <;> simp_all
          rcases hor with rfl | rfl
          · simp [stratSignal, List.getElem?_zipWith, hfo, hso, gtOpt]
          · cases fo <;> simp [stratSignal, List.getElem?_zipWith, hfo, hso, gtOpt]
      | smaCross50_200 =>
          have hfb : t + 1 < (rollingMean 50 close).length := by
            rw [length_rollingMean]; exact hk
          have hsb : t + 1 < (rollingMean 200 close).length := by
            rw [length_rollingMean]; exact hk
          obtain ⟨fo, hfo⟩ : ∃ fo, (rollingMean 50 close)[t + 1]? = some fo :=
            ⟨_, List.getElem?_eq_getElem hfb⟩
          obtain ⟨so, hso⟩ : ∃ so, (rollingMean 200 close)[t + 1]? = some so :=
            ⟨_, List.getElem?_eq_getElem hsb⟩
          have hmf : (someMask (rollingMean 50 close))[t + 1]? = some fo.isSome := by
            rw [someMask_getElem?, hfo]; rfl
          have hms : (someMask (rollingMean 200 close))[t + 1]? = some so.isSome := by
            rw [someMask_getElem?, hso]; rfl
          have hand := andMask_getElem? _ _ (t + 1) fo.isSome so.isSome hmf hms
          rw [stratExtraDef] at he
          rw [he] at hand
          have hff : (fo.isSome && so.isSome) = false := (Option.some_inj.mp hand).symm
          have hor : fo = none ∨ so = none := by
            cases fo <;> cases so <;> simp_all
          rcases hor with rfl | rfl
          · simp [stratSignal, List.getElem?_zipWith, hfo, hso, gtOpt]
          · cases fo <;> simp [stratSignal, List.getElem?_zipWith, hfo, hso, gtOpt]
      | rsiMeanRev =>
          have hrb : t + 1 < (rsiSeries close).length := by
            rw [length_rsiSeries]; exact hk
          obtain ⟨rv, hrv⟩ : ∃ rv, (rsiSeries close)[t + 1]? = some rv :=
            ⟨_, List.getElem?_eq_getElem hrb⟩
          rw [stratExtraDef] at he
          rw [someMask_getElem?, hrv] at he
          have : rv.isSome = false := by simpa using he
          have hrn : rv = none := by
            cases rv with
            | none => rfl
            | some x => simp at this
          subst hrn
          simp [stratSignal, List.getElem?_map, hrv, ltOptC, gtOptC]
      | macdCross =>
          rw [stratExtraDef] at he
          obtain ⟨c, hc⟩ : ∃ c, close[t + 1]? = some c :=
            ⟨_, List.getElem?_eq_getElem hk⟩
          rw [List.getElem?_map, hc] at he
          simp at he

/-! ## Lemmas about row filtering and cumulative products -/

theorem mem_of_mem_filterMask {α : Type} (bs : List Bool) (xs : List α) (x : α)
    (hx : x ∈ filterMask bs xs) : x ∈ xs := by
  induction bs generalizing xs with
  | nil => simp [filterMask] at hx
  | cons b bt ih =>
      cases xs with
      | nil => cases b <;> simp [filterMask] at hx
      | cons y yt =>
          cases b with
          | true =>
              rw [filterMask] at hx
              rcases List.mem_cons.mp hx with rfl | hmem
              · exact List.mem_cons_self _ _
              · exact List.mem_cons_of_mem _ (ih yt hmem)
          | false =>
              rw [filterMask] at hx
              exact List.mem_cons_of_mem _ (ih yt hx)

theorem filterMask_first {α : Type} (bs : List Bool) (xs : List α) (y : α)
    (ys : List α) (hlen : bs.length = xs.length)
    (hfm : filterMask bs xs = y :: ys) :
    ∃ n, n < xs.length ∧ (∀ k, k < n → bs[k]? = some false) ∧
      bs[n]? = some true ∧ xs[n]? = some y := by
  induction bs generalizing xs with
  | nil =>
      cases xs with
      | nil => simp [filterMask] at hfm
      | cons _ _ => simp at hlen
  | cons b bt ih =>
      cases xs with
      | nil => simp at hlen
      | cons z zt =>
          cases b with
          | true =>
              rw [filterMask] at hfm
              refine ⟨0, by simp, ?_, by simp, ?_⟩
              · intro k hk; omega
              · simp [(List.cons_eq_cons.mp hfm).1]
          | false =>
              rw [filterMask] at hfm
              obtain ⟨n, hn, hfalse, htrue, hy⟩ := ih zt (by simpa using hlen) hfm
              refine ⟨n + 1, by simpa using hn, ?_, by simpa using htrue,
                by simpa using hy⟩
              intro k hk
              cases k with
              | zero => simp
              | succ j =>
                  have : j < n := by omega
                  simpa using hfalse j this

theorem filterMask_length_congr {α β : Type} (bs : List Bool) (xs : List α)
    (zs : List β) (h1 : bs.length = xs.length) (h2 : bs.length = zs.length) :
    (filterMask bs xs).length = (filterMask bs zs).length := by
  induction bs generalizing xs zs with
  | nil =>
      cases xs with
      | nil =>
          cases zs with
          | nil => rfl
          | cons _ _ => simp at h2
      | cons _ _ => simp at h1
  | cons b bt ih =>
      cases xs with
      | nil => simp at h1
      | cons x xt =>
          cases zs with
          | nil => simp at h2
          | cons z zt =>
              cases b with
              | true =>
                  rw [filterMask, filterMask]
                  simp only [List.length_cons]
                  rw [ih xt zt (by simpa using h1) (by simpa using h2)]
              | false =>
                  rw [filterMask, filterMask]
                  exact ih xt zt (by simpa using h1) (by simpa using h2)

theorem filterMask_forall_mem {α : Type} (bs : List Bool) (xs : List α)
    (P : α → Prop)
    (H : ∀ (i : Nat) (x : α), bs[i]? = some true → xs[i]? = some x → P x) :
    ∀ x ∈ filterMask bs xs, P x := by
  induction bs generalizing xs with
  | nil => simp [filterMask]
  | cons b bt ih =>
      cases xs with
      | nil => cases b <;> simp [filterMask]
      | cons z zt =>
          have Htail : ∀ (i : Nat) (x : α), bt[i]? = some true → zt[i]? = some x → P x := by
            intro i x h1 h2
            exact H (i + 1) x (by simpa using h1) (by simpa using h2)
          cases b with
          | true =>
              rw [filterMask]
              intro x hx
              rcases List.mem_cons.mp hx with rfl | hmem
              · exact H 0 x (by simp) (by simp)
              · exact ih zt Htail x hmem
          | false =>
              rw [filterMask]
              intro x hx
              exact ih zt Htail x hx

theorem cumprodFrom_pos (acc : ℚ) (xs : List (Option ℚ)) (hacc : 0 < acc)
    (hxs : ∀ o ∈ xs, ∀ v, o = some v → 0 < v) :
    ∀ o ∈ cumprodFrom acc xs, ∀ v, o = some v → 0 < v := by
  induction xs generalizing acc with
  | nil => simp [cumprodFrom]
  | cons o rest ih =>
      have htail : ∀ o ∈ rest, ∀ v, o = some v → 0 < v := by
        intro o ho v hv
        exact hxs o (List.mem_cons_of_mem _ ho) v hv
      cases o with
      | none =>
          rw [cumprodFrom]
          intro p hp v hv
          rcases List.mem_cons.mp hp with rfl | hmem
          · simp at hv
          · exact ih acc hacc htail p hmem v hv
      | some w =>
          have hw : 0 < w := hxs (some w) (List.mem_cons_self _ _) w rfl
          rw [cumprodFrom]
          intro p hp v hv
          rcases List.mem_cons.mp hp with rfl | hmem
          · have : v = acc * w := (Option.some_inj.mp hv).symm
            rw [this]
            exact mul_pos hacc hw
          · exact ih (acc * w) (mul_pos hacc hw) htail p hmem v hv

theorem cumprodFrom_getElem?_of_ones (xs : List (Option ℚ)) (acc : ℚ) (n : Nat)
    (hones : ∀ j, j ≤ n → ∀ v, xs[j]? = some (some v) → v = 1)
    (w : Option ℚ) (hw : xs[n]? = some w) :
    (cumprodFrom acc xs)[n]? = some (w.map (fun _ => acc)) := by
  induction xs generalizing acc n with
  | nil => simp at hw
  | cons o rest ih =>
      cases n with
      | zero =>
          have ho : o = w := by simpa using hw
          subst ho
          cases o with
          | none => simp [cumprodFrom]
          | some v =>
              have hv1 : v = 1 := hones 0 (by omega) v (by simp)
              subst hv1
              simp [cumprodFrom]
      | succ m =>
          have htail : ∀ j, j ≤ m → ∀ v, rest[j]? = some (some v) → v = 1 := by
            intro j hj v hjv
            exact hones (j + 1) (by omega) v (by simpa using hjv)
          have hwt : rest[m]? = some w := by simpa using hw
          cases o with
          | none =>
              rw [cumprodFrom]
              simpa using ih acc m htail hwt
          | some v =>
              have hv1 : v = 1 := hones 0 (by omega) v (by simp)
              subst hv1
              rw [cumprodFrom]
              simpa [mul_one] using ih (acc * 1) m htail hwt

theorem reduceOption_length_of_all_isSome {α : Type} (xs : List (Option α))
    (h : ∀ o ∈ xs, o.isSome = true) : xs.reduceOption.length = xs.length := by
  induction xs with
  | nil => rfl
  | cons o rest ih =>
      cases o with
      | none =>
          have := h none (List.mem_cons_self _ _)
          simp at this
      | some v =>
          rw [List.reduceOption_cons_of_some]
          simp only [List.length_cons]
          rw [ih (fun o ho => h o (List.mem_cons_of_mem _ ho))]

/-! ## Drawdown lemmas -/

theorem foldl_min_le_init (l : List ℚ) (x : ℚ) : l.foldl min x ≤ x := by
  induction l generalizing x with
  | nil => exact le_refl x
  | cons y yt ih =>
      calc List.foldl min x (y :: yt) = yt.foldl min (min x y) := rfl
        _ ≤ min x y := ih (min x y)
        _ ≤ x := min_le_left x y

theorem foldl_min_le_mem (l : List ℚ) (x y : ℚ) (hy : y ∈ l) :
    l.foldl min x ≤ y := by
  induction l generalizing x with
  | nil => simp at hy
  | cons z zt ih =>
      rcases List.mem_cons.mp hy with rfl | hmem
      · calc List.foldl min x (y :: zt) = zt.foldl min (min x y) := rfl
          _ ≤ min x y := foldl_min_le_init zt (min x y)
          _ ≤ y := min_le_right x y
      · exact ih (min x z) hmem

theorem le_foldl_min (l : List ℚ) (x c : ℚ) (hc : c ≤ x)
    (hl : ∀ y ∈ l, c ≤ y) : c ≤ l.foldl min x := by
  induction l generalizing x with
  | nil => exact hc
  | cons z zt ih =>
      have hz : c ≤ z := hl z (List.mem_cons_self _ _)
      exact ih (min x z) (le_min hc hz) (fun y hy => hl y (List.mem_cons_of_mem _ hy))

theorem dd_aux (xs : List ℚ) (m : ℚ) (hm : 0 < m) :
    (∀ d ∈ List.zipWith (fun c mm => (c - mm) / mm) xs (runMaxFrom m xs), d ≤ 0) ∧
    ((∀ d ∈ List.zipWith (fun c mm => (c - mm) / mm) xs (runMaxFrom m xs), d = 0) ↔
      leChainFrom m xs) := by
  induction xs generalizing m with
  | nil => simp [runMaxFrom, leChainFrom]
  | cons x xt ih =>
      have hm2 : 0 < max m x := lt_of_lt_of_le hm (le_max_left m x)
      have hhead_le : (x - max m x) / max m x ≤ 0 := by
        apply div_nonpos_iff.mpr
        exact Or.inr ⟨sub_nonpos.mpr (le_max_right m x), hm2.le⟩
      have hhead_eq : ((x - max m x) / max m x = 0) ↔ m ≤ x := by
        rw [div_eq_zero_iff]
        constructor
        · intro h
          rcases h with h | h
          · have : x = max m x := by linarith [sub_eq_zero.mp h]
            exact max_eq_right_iff.mp this.symm
          · exact absurd h (ne_of_gt hm2)
        · intro h
          left
          rw [max_eq_right h]
          ring
      obtain ⟨ihle, ihiff⟩ := ih (max m x) hm2
      constructor
      · intro d hd
        rw [runMaxFrom, List.zipWith_cons_cons] at hd
        rcases List.mem_cons.mp hd with rfl | hmem
        · exact hhead_le
        · exact ihle d hmem
      · rw [runMaxFrom, List.zipWith_cons_cons]
        constructor
        · intro hall
          have h0 := hall _ (List.mem_cons_self _ _)
          have hmx : m ≤ x := hhead_eq.mp h0
          have htail : ∀ d ∈ List.zipWith (fun c mm => (c - mm) / mm) xt
              (runMaxFrom (max m x) xt), d = 0 := by
            intro d hd
            exact hall d (List.mem_cons_of_mem _ hd)
          have hchain := ihiff.mp htail
          rw [max_eq_right hmx] at hchain
          exact ⟨hmx, hchain⟩
        · intro hchain
          rw [leChainFrom] at hchain
          obtain ⟨hmx, hchain⟩ := hchain
          intro d hd
          rcases List.mem_cons.mp hd with rfl | hmem
          · exact hhead_eq.mpr hmx
          · have hchain2 : leChainFrom (max m x) xt := by
              rw [max_eq_right hmx]
              exact hchain
            exact (ihiff.mpr hchain2) d hmem

theorem leChainFrom_iff_nonDecB (xs : List ℚ) (x : ℚ) :
    leChainFrom x xs ↔ nonDecB (x :: xs) = true := by
  induction xs generalizing x with
  | nil => simp [leChainFrom, nonDecB]
  | cons y yt ih =>
      rw [leChainFrom, nonDecB]
      rw [ih y]
      simp

theorem maxDrawdownPct_spec (x : ℚ) (xs : List ℚ) (hx : 0 < x) :
    maxDrawdownPct (x :: xs) ≤ 0 ∧
      (maxDrawdownPct (x :: xs) = 0 ↔ nonDecB (x :: xs) = true) := by
  have hdd := dd_aux xs x hx
  have hunfold : maxDrawdownPct (x :: xs) =
      listMin (((x - x) / x) ::
        List.zipWith (fun c mm => (c - mm) / mm) xs (runMaxFrom x xs)) * 100 := by
    rw [maxDrawdownPct, runningMax, List.zipWith_cons_cons]
  have hzero : (x - x) / x = 0 := by
    rw [sub_self, zero_div]
  rw [hunfold, hzero]
  have hlm : listMin (0 :: List.zipWith (fun c mm => (c - mm) / mm) xs
      (runMaxFrom x xs)) =
      (List.zipWith (fun c mm => (c - mm) / mm) xs (runMaxFrom x xs)).foldl min 0 := rfl
  rw [hlm]
  set dd := List.zipWith (fun c mm => (c - mm) / mm) xs (runMaxFrom x xs) with hdef
  have hle : dd.foldl min 0 ≤ 0 := foldl_min_le_init dd 0
  constructor
  · nlinarith
  · constructor
    · intro h100
      have hmin : dd.foldl min 0 = 0 := by
        rcases mul_eq_zero.mp h100 with h | h
        · exact h
        · norm_num at h
      have hall : ∀ d ∈ dd, d = 0 := by
        intro d hd
        have h1 : dd.foldl min 0 ≤ d := foldl_min_le_mem dd 0 d hd
        have h2 : d ≤ 0 := hdd.1 d hd
        rw [hmin] at h1
        linarith
      rw [← leChainFrom_iff_nonDecB]
      exact hdd.2.mp hall
    · intro hnd
      have hchain := (leChainFrom_iff_nonDecB xs x).mpr hnd
      have hall : ∀ d ∈ dd, d = 0 := hdd.2.mpr hchain
      have hge : 0 ≤ dd.foldl min 0 := by
        apply le_foldl_min dd 0 0 (le_refl 0)
        intro y hy
        rw [hall y hy]
      have : dd.foldl min 0 = 0 := le_antisymm hle hge
      rw [this]
      ring

/-! ## Positivity and head lemmas for the cleaned equity curves -/

theorem andMask_eq_true (a b : List Bool) (i : Nat)
    (h : (andMask a b)[i]? = some true) : a[i]? = some true ∧ b[i]? = some true := by
  cases ha : a[i]? with
  | none => simp [andMask, List.getElem?_zipWith, ha] at h
  | some x =>
      cases hb : b[i]? with
      | none => simp [andMask, List.getElem?_zipWith, ha, hb] at h
      | some y =>
          rw [andMask, List.getElem?_zipWith, ha, hb] at h
          have hxy : (x && y) = true := by simpa using h
          obtain ⟨hx, hy⟩ := Bool.and_eq_true_iff.mp hxy
          subst hx
          subst hy
          exact ⟨rfl, rfl⟩

theorem dropnaMask_true_parts (strat : Strategy) (close : List ℚ) (i : Nat)
    (h : (dropnaMask (btCols strat close))[i]? = some true) :
    (someMask (btCols strat close).cumMarket)[i]? = some true ∧
      (someMask (btCols strat close).cumStrat)[i]? = some true := by
  rw [dropnaMask] at h
  obtain ⟨hE, h1⟩ := andMask_eq_true _ _ i h
  obtain ⟨hR, h2⟩ := andMask_eq_true _ _ i h1
  obtain ⟨hS, h3⟩ := andMask_eq_true _ _ i h2
  exact andMask_eq_true _ _ i h3

theorem pctFactor_pos_aux (rest : List ℚ) (prev : ℚ) (hprev : 0 < prev)
    (hrest : ∀ c ∈ rest, 0 < c) :
    ∀ o ∈ (List.zipWith (fun cur p => some (cur / p - 1)) rest (prev :: rest)).map
      (Option.map (fun r => 1 + r)), ∀ v, o = some v → 0 < v := by
  induction rest generalizing prev with
  | nil => simp
  | cons r rt ih =>
      have hr : 0 < r := hrest r (List.mem_cons_self _ _)
      have hrt : ∀ c ∈ rt, 0 < c := fun c hc => hrest c (List.mem_cons_of_mem _ hc)
      rw [List.zipWith_cons_cons, List.map_cons]
      intro o ho v hv
      rcases List.mem_cons.mp ho with rfl | hmem
      · have hveq : v = 1 + (r / prev - 1) := by simpa using hv.symm
        have : v = r / prev := by rw [hveq]; ring
        rw [this]
        exact div_pos hr hprev
      · exact ih r hr hrt o hmem v hv

theorem cumMarket_factors_pos (close : List ℚ) (hpos : ∀ c ∈ close, 0 < c) :
    ∀ o ∈ (pctChange close).map (Option.map (fun r => 1 + r)),
      ∀ v, o = some v → 0 < v := by
  cases close with
  | nil => simp [pctChange]
  | cons c rest =>
      have hc : 0 < c := hpos c (List.mem_cons_self _ _)
      have hrest : ∀ x ∈ rest, 0 < x := fun x hx => hpos x (List.mem_cons_of_mem _ hx)
      rw [pctChange, List.map_cons]
      intro o ho v hv
      rcases List.mem_cons.mp ho with rfl | hmem
      · simp at hv
      · exact pctFactor_pos_aux rest c hc hrest o hmem v hv

theorem cleanedCumMarket_pos (strat : Strategy) (close : List ℚ)
    (hpos : ∀ c ∈ close, 0 < c) :
    ∀ q ∈ cleanedCumMarket strat close, 0 < q := by
  intro q hq
  rw [cleanedCumMarket, List.reduceOption_mem_iff] at hq
  have hmem : some q ∈ (btCols strat close).cumMarket :=
    mem_of_mem_filterMask _ _ _ hq
  have hfac := cumMarket_factors_pos close hpos
  have : (btCols strat close).cumMarket =
      cumprodFrom 1 ((pctChange close).map (Option.map (fun r => 1 + r))) := rfl
  rw [this] at hmem
  exact cumprodFrom_pos 1 _ one_pos hfac (some q) hmem q rfl

theorem cleaned_all_isSome_cumMarket (strat : Strategy) (close : List ℚ) :
    ∀ o ∈ filterMask (dropnaMask (btCols strat close)) (btCols strat close).cumMarket,
      o.isSome = true := by
  apply filterMask_forall_mem
  intro i x hmask hx
  have hsm := (dropnaMask_true_parts strat close i hmask).1
  rw [someMask_getElem?, hx] at hsm
  simpa using hsm

theorem cleaned_all_isSome_cumStrat (strat : Strategy) (close : List ℚ) :
    ∀ o ∈ filterMask (dropnaMask (btCols strat close)) (btCols strat close).cumStrat,
      o.isSome = true := by
  apply filterMask_forall_mem
  intro i x hmask hx
  have hsm := (dropnaMask_true_parts strat close i hmask).2
  rw [someMask_getElem?, hx] at hsm
  simpa using hsm

theorem cleanedCumStrat_head (strat : Strategy) (close : List ℚ)
    (h : filterMask (dropnaMask (btCols strat close)) (btCols strat close).cumStrat ≠ []) :
    ∃ tl, cleanedCumStrat strat close = 1 :: tl := by
  obtain ⟨y, ys, hfm⟩ : ∃ y ys,
      filterMask (dropnaMask (btCols strat close)) (btCols strat close).cumStrat =
        y :: ys := by
    cases hcase : filterMask (dropnaMask (btCols strat close))
        (btCols strat close).cumStrat with
    | nil => exact absurd hcase h
    | cons a b => exact ⟨a, b, rfl⟩
  have hlen : (dropnaMask (btCols strat close)).length =
      (btCols strat close).cumStrat.length := by
    rw [length_dropnaMask, length_btCumStrat]
  obtain ⟨n, hn, hfalse, htrue, hy⟩ :=
    filterMask_first (dropnaMask (btCols strat close)) (btCols strat close).cumStrat
      y ys hlen hfm
  have hnc : n < close.length := by
    rw [length_btCumStrat] at hn
    exact hn
  have hclen : 0 < close.length := Nat.lt_of_le_of_lt (Nat.zero_le n) hnc
  have hne : close ≠ [] := List.length_pos.mp hclen
  have hn0 : n ≠ 0 := by
    intro h0
    subst h0
    rw [dropnaMask_zero strat close hclen] at htrue
    simp at htrue
  -- the pre-drop factors of the strategy curve
  have hfs : (btCols strat close).cumStrat = cumprodFrom 1
      (((btCols strat close).stratRet).map (Option.map (fun r => 1 + r))) := rfl
  have hones : ∀ j, j ≤ n → ∀ v,
      ((((btCols strat close).stratRet).map (Option.map (fun r => 1 + r)))[j]?) =
        some (some v) → v = 1 := by
    intro j hj v hjv
    rw [List.getElem?_map] at hjv
    cases j with
    | zero =>
        rw [btStratRet_zero strat close hne] at hjv
        simp at hjv
    | succ i =>
        have hilt : i < n := by omega
        have hic : i < close.length := by omega
        have hi1c : i + 1 < close.length := by
          have : i + 1 ≤ n := hilt
          omega
        have hmaskF : (dropnaMask (btCols strat close))[i]? = some false :=
          hfalse i hilt
        have hsig : (stratSignal strat close)[i]? = some 0 :=
          stratSignal_eq_zero strat close i hic hmaskF
        obtain ⟨cp, hcp⟩ : ∃ cp, close[i]? = some cp :=
          ⟨_, List.getElem?_eq_getElem hic⟩
        obtain ⟨cc, hcc⟩ : ∃ cc, close[i + 1]? = some cc :=
          ⟨_, List.getElem?_eq_getElem hi1c⟩
        have hsr := btStratRet_succ strat close i hi1c 0 hsig cp cc hcp hcc
        rw [hsr] at hjv
        have : v = 1 + ((0 : Int) : ℚ) * (cc / cp - 1) := by
          simpa using hjv.symm
        rw [this]
        simp
  obtain ⟨sr, hsr⟩ : ∃ sr, ((btCols strat close).stratRet)[n]? = some sr := by
    have : n < ((btCols strat close).stratRet).length := by
      rw [length_btStratRet]; exact hnc
    exact ⟨_, List.getElem?_eq_getElem this⟩
  have hfsn : ((((btCols strat close).stratRet).map
      (Option.map (fun r => 1 + r)))[n]?) = some (sr.map (fun r => 1 + r)) := by
    rw [List.getElem?_map, hsr]
    rfl
  have hcum := cumprodFrom_getElem?_of_ones _ 1 n hones _ hfsn
  rw [← hfs] at hcum
  rw [hy] at hcum
  have hyeq : y = (sr.map (fun r => 1 + r)).map (fun _ => (1 : ℚ)) :=
    Option.some_inj.mp hcum
  have hysome : y.isSome = true := by
    have hparts := (dropnaMask_true_parts strat close n htrue).2
    rw [someMask_getElem?, hy] at hparts
    simpa using hparts
  obtain ⟨srv, hsrv⟩ : ∃ srv, sr = some srv := by
    cases sr with
    | none =>
        rw [hyeq] at hysome
        simp at hysome
    | some v => exact ⟨v, rfl⟩
  have hy1 : y = some 1 := by
    rw [hyeq, hsrv]
    rfl
  subst hy1
  refine ⟨ys.reduceOption, ?_⟩
  rw [cleanedCumStrat, hfm, List.reduceOption_cons_of_some]

theorem filter_returns_nonempty (strat : Strategy) (close : List ℚ)
    (h : cleanedReturns strat close ≠ []) :
    filterMask (dropnaMask (btCols strat close)) (btCols strat close).returns ≠ [] := by
  intro hnil
  rw [cleanedReturns, hnil] at h
  exact h rfl

theorem filter_cumStrat_nonempty (strat : Strategy) (close : List ℚ)
    (h : cleanedReturns strat close ≠ []) :
    filterMask (dropnaMask (btCols strat close)) (btCols strat close).cumStrat ≠ [] := by
  have h1 := filter_returns_nonempty strat close h
  intro hnil
  apply h1
  have hcongr := filterMask_length_congr (dropnaMask (btCols strat close))
    (btCols strat close).returns (btCols strat close).cumStrat
    (by rw [length_dropnaMask, length_btReturns])
    (by rw [length_dropnaMask, length_btCumStrat])
  rw [hnil] at hcongr
  simpa using List.length_eq_zero.mp (by simpa using hcongr)

theorem filter_cumMarket_nonempty (strat : Strategy) (close : List ℚ)
    (h : cleanedReturns strat close ≠ []) :
    filterMask (dropnaMask (btCols strat close)) (btCols strat close).cumMarket ≠ [] := by
  have h1 := filter_returns_nonempty strat close h
  intro hnil
  apply h1
  have hcongr := filterMask_length_congr (dropnaMask (btCols strat close))
    (btCols strat close).returns (btCols strat close).cumMarket
    (by rw [length_dropnaMask, length_btReturns])
    (by rw [length_dropnaMask, length_btCumMarket])
  rw [hnil] at hcongr
  simpa using List.length_eq_zero.mp (by simpa using hcongr)

theorem cleanedCumMarket_nonempty (strat : Strategy) (close : List ℚ)
    (h : cleanedReturns strat close ≠ []) : cleanedCumMarket strat close ≠ [] := by
  have hfm := filter_cumMarket_nonempty strat close h
  rw [cleanedCumMarket]
  intro hnil
  apply hfm
  have hlen := reduceOption_length_of_all_isSome _ (cleaned_all_isSome_cumMarket strat close)
  rw [hnil] at hlen
  exact List.length_eq_zero.mp (by simpa using hlen.symm)

theorem cleanedCumStrat_nonempty (strat : Strategy) (close : List ℚ)
    (h : cleanedReturns strat close ≠ []) : cleanedCumStrat strat close ≠ [] := by
  have hfm := filter_cumStrat_nonempty strat close h
  rw [cleanedCumStrat]
  intro hnil
  apply hfm
  have hlen := reduceOption_length_of_all_isSome _ (cleaned_all_isSome_cumStrat strat close)
  rw [hnil] at hlen
  exact List.length_eq_zero.mp (by simpa using hlen.symm)

/-! ## The market curve telescopes to close(t)/close(0) -/

theorem cumMarket_telescope_aux (rest : List ℚ) (prev acc : ℚ) (hprev : 0 < prev)
    (hrest : ∀ c ∈ rest, 0 < c) (k : Nat) (rk : ℚ)
    (hrk : rest[k]? = some rk) :
    (cumprodFrom acc ((List.zipWith (fun cur p => some (cur / p - 1)) rest
      (prev :: rest)).map (Option.map (fun r => 1 + r))))[k]? =
      some (some (acc * (rk / prev))) := by
  induction rest generalizing prev acc k rk with
  | nil => simp at hrk
  | cons r rt ih =>
      have hr : 0 < r := hrest r (List.mem_cons_self _ _)
      have hrt : ∀ c ∈ rt, 0 < c := fun c hc => hrest c (List.mem_cons_of_mem _ hc)
      rw [List.zipWith_cons_cons, List.map_cons]
      show (cumprodFrom acc (some (1 + (r / prev - 1)) :: _))[k]? = _
      rw [cumprodFrom]
      cases k with
      | zero =>
          have hk0 : r = rk := by simpa using hrk
          subst hk0
          simp only [List.getElem?_cons_zero]
          congr 2
          ring
      | succ m =>
          have hm : rt[m]? = some rk := by simpa using hrk
          rw [List.getElem?_cons_succ]
          rw [ih r (acc * (1 + (r / prev - 1))) hr hrt m rk hm]
          congr 2
          field_simp
          ring

theorem cumMarket_value (strat : Strategy) (close : List ℚ)
    (hpos : ∀ c ∈ close, 0 < c) (t : Nat) (h1 : 1 ≤ t)
    (c0 ct : ℚ) (hc0 : close[0]? = some c0) (hct : close[t]? = some ct) :
    (btCols strat close).cumMarket[t]? = some (some (ct / c0)) := by
  cases close with
  | nil => simp at hc0
  | cons c rest =>
      have hceq : c = c0 := by simpa using hc0
      subst hceq
      have hc : 0 < c := hpos c (List.mem_cons_self _ _)
      have hrest : ∀ x ∈ rest, 0 < x := fun x hx => hpos x (List.mem_cons_of_mem _ hx)
      obtain ⟨m, rfl⟩ : ∃ m, t = m + 1 := ⟨t - 1, by omega⟩
      have hm : rest[m]? = some ct := by simpa using hct
      have hshape : (btCols strat (c :: rest)).cumMarket =
          none :: cumprodFrom 1 ((List.zipWith (fun cur p => some (cur / p - 1)) rest
            (c :: rest)).map (Option.map (fun r => 1 + r))) := by
        show cumprodFrom 1 ((pctChange (c :: rest)).map (Option.map (fun r => 1 + r))) = _
        rw [pctChange, List.map_cons]
        simp only [Option.map_none']
        rfl
      rw [hshape, List.getElem?_cons_succ]
      rw [cumMarket_telescope_aux rest c 1 hc hrest m ct hm]
      congr 2
      ring

/-! ## RSI lemmas: definedness window and value bounds -/

theorem lt_length_of_getElem?_some {α : Type} (l : List α) (i : Nat) (a : α)
    (h : l[i]? = some a) : i < l.length := by
  by_contra hc
  rw [List.getElem?_eq_none (by omega)] at h
  exact Option.noConfusion h

theorem gainRaw_nonneg (xs : List ℚ) : ∀ x ∈ gainRaw xs, 0 ≤ x := by
  intro x hx
  rw [gainRaw] at hx
  obtain ⟨o, _, ho⟩ := List.mem_map.mp hx
  cases o with
  | none =>
      have hx0 : (0 : ℚ) = x := by simpa using ho
      rw [← hx0]
  | some v =>
      have hxe : (if 0 < v then v else 0) = x := by simpa using ho
      by_cases hv : 0 < v
      · rw [if_pos hv] at hxe
        rw [← hxe]
        exact hv.le
      · rw [if_neg hv] at hxe
        rw [← hxe]

theorem lossRaw_nonneg (xs : List ℚ) : ∀ x ∈ lossRaw xs, 0 ≤ x := by
  intro x hx
  rw [lossRaw] at hx
  obtain ⟨o, _, ho⟩ := List.mem_map.mp hx
  cases o with
  | none =>
      have hx0 : (0 : ℚ) = x := by simpa using ho
      rw [← hx0]
  | some v =>
      have hxe : (if v < 0 then -v else 0) = x := by simpa using ho
      by_cases hv : v < 0
      · rw [if_pos hv] at hxe
        rw [← hxe]
        linarith
      · rw [if_neg hv] at hxe
        rw [← hxe]

theorem foldl_add_nonneg (l : List ℚ) (s : ℚ) (hs : 0 ≤ s)
    (hl : ∀ y ∈ l, 0 ≤ y) : 0 ≤ l.foldl (· + ·) s := by
  induction l generalizing s with
  | nil => exact hs
  | cons y yt ih =>
      have hy : 0 ≤ y := hl y (List.mem_cons_self _ _)
      exact ih (s + y) (by linarith) (fun z hz => hl z (List.mem_cons_of_mem _ hz))

theorem rollingMean_nonneg (w : Nat) (ys : List ℚ) (hys : ∀ y ∈ ys, 0 ≤ y)
    (i : Nat) (v : ℚ) (hv : (rollingMean w ys)[i]? = some (some v)) : 0 ≤ v := by
  have hi : i < ys.length := by
    have := lt_length_of_getElem?_some _ i _ hv
    rw [length_rollingMean] at this
    exact this
  rw [rollingMean_getElem? w ys i hi] at hv
  by_cases hc : i + 1 < w
  · rw [if_pos hc] at hv
    simp at hv
  · rw [if_neg hc] at hv
    have hveq : v = (((ys.take (i + 1)).drop (i + 1 - w)).foldl (· + ·) 0) / (w : ℚ) := by
      have := Option.some_inj.mp hv
      exact (Option.some_inj.mp this).symm
    rw [hveq]
    apply div_nonneg
    · apply foldl_add_nonneg _ 0 (le_refl 0)
      intro y hy
      exact hys y (List.mem_of_mem_take (List.mem_of_mem_drop hy))
    · exact Nat.cast_nonneg w

theorem zipWith_divOpt_none (A B : List (Option ℚ)) (hA : ∀ o ∈ A, o = none) :
    ∀ o ∈ List.zipWith divOpt A B, o = none := by
  induction A generalizing B with
  | nil => simp
  | cons a at' ih =>
      cases B with
      | nil => simp
      | cons b bt =>
          rw [List.zipWith_cons_cons]
          intro o ho
          rcases List.mem_cons.mp ho with rfl | hmem
          · have ha : a = none := hA a (List.mem_cons_self _ _)
            rw [ha]
            rfl
          · exact ih bt (fun x hx => hA x (List.mem_cons_of_mem _ hx)) o hmem

theorem rollingMean_all_none_of_short (w : Nat) (ys : List ℚ)
    (h : ys.length < w) : ∀ o ∈ rollingMean w ys, o = none := by
  intro o ho
  rw [rollingMean] at ho
  obtain ⟨i, hi, hieq⟩ := List.mem_map.mp ho
  have hilt : i < ys.length := List.mem_range.mp hi
  rw [← hieq, if_pos (by omega)]

theorem rsiSeries_all_none_of_short (xs : List ℚ) (h : xs.length < 14) :
    ∀ o ∈ rsiSeries xs, o = none := by
  intro o ho
  rw [rsiSeries] at ho
  obtain ⟨r, hr, hreq⟩ := List.mem_map.mp ho
  have hrs : r = none := by
    apply zipWith_divOpt_none (gainSm xs) (replaceZeroNaN (lossSm xs)) _ r hr
    apply rollingMean_all_none_of_short
    rw [length_gainRaw]
    exact h
  rw [← hreq, hrs]
  rfl

theorem replaceZeroNaN_getElem?_ne_zero (xs : List (Option ℚ)) (i : Nat)
    (d : Option ℚ) (hd : (replaceZeroNaN xs)[i]? = some d) : d ≠ some 0 := by
  rw [replaceZeroNaN, List.getElem?_map] at hd
  cases ho : xs[i]? with
  | none => rw [ho] at hd; simp at hd
  | some o =>
      rw [ho] at hd
      have hde : d = o.bind (fun v => if v = 0 then none else some v) := by
        simpa using hd.symm
      cases o with
      | none => rw [hde]; simp
      | some v =>
          by_cases hv : v = 0
          · rw [hde]
            simp [hv]
          · rw [hde]
            simp [hv]

theorem rs_rsi_none_of_loss_zero (xs : List ℚ) (t : Nat)
    (h : (lossSm xs)[t]? = some (some 0)) :
    (rsSeries xs)[t]? = some none ∧ (rsiSeries xs)[t]? = some none := by
  have ht : t < xs.length := by
    have := lt_length_of_getElem?_some _ t _ h
    rw [length_lossSm] at this
    exact this
  have hrepl : (replaceZeroNaN (lossSm xs))[t]? = some none := by
    rw [replaceZeroNaN, List.getElem?_map, h]
    simp
  obtain ⟨g0, hg0⟩ : ∃ g0, (gainSm xs)[t]? = some g0 := by
    have : t < (gainSm xs).length := by rw [length_gainSm]; exact ht
    exact ⟨_, List.getElem?_eq_getElem this⟩
  have hdiv : divOpt g0 none = none := by
    cases g0 <;> rfl
  have hrs : (rsSeries xs)[t]? = some none := by
    rw [rsSeries, List.getElem?_zipWith, hg0, hrepl]
    show some (divOpt g0 none) = some none
    rw [hdiv]
  refine ⟨hrs, ?_⟩
  rw [rsiSeries, List.getElem?_map, hrs]
  rfl

/-! ## The claims -/

/-- C1: for every price table and strategy, at every bar `t` after the first,
the strategy return at bar `t` equals the signal at bar `t-1` multiplied by
the market return at bar `t` (the percent change of close from bar `t-1` to
bar `t`); the strategy return at the first bar is undefined (`NaN`) and that
row is dropped by the cleaning mask. -/
theorem c1_backtest_lag_invariant (strat : Strategy) (close : List ℚ)
    (hpos : ∀ c ∈ close, 0 < c) (t : Nat) (h1 : 1 ≤ t) (ht : t < close.length) :
    (∀ (s : Int) (cp cc : ℚ), (stratSignal strat close)[t - 1]? = some s →
        close[t - 1]? = some cp → close[t]? = some cc →
        (btCols strat close).stratRet[t]? = some (some ((s : ℚ) * (cc / cp - 1)))) ∧
    (btCols strat close).stratRet[0]? = some none ∧
    (dropnaMask (btCols strat close))[0]? = some false := by
  have hclen : 0 < close.length := by omega
  have hne : close ≠ [] := List.length_pos.mp hclen
  obtain ⟨m, rfl⟩ : ∃ m, t = m + 1 := ⟨t - 1, by omega⟩
  refine ⟨?_, btStratRet_zero strat close hne, dropnaMask_zero strat close hclen⟩
  intro s cp cc hs hcp hcc
  have hm : m + 1 - 1 = m := by omega
  rw [hm] at hs hcp
  exact btStratRet_succ strat close m ht s hs cp cc hcp hcc

/-- Witness for C1 at `close = [100, 110]`, MACD strategy, `t = 1`. -/
theorem c1_backtest_lag_invariant_witness :
    (btCols Strategy.macdCross [100, 110]).stratRet[1]? =
      some (some (((0 : Int) : ℚ) * ((110 : ℚ) / 100 - 1))) ∧
    (btCols Strategy.macdCross [100, 110]).stratRet[0]? = some none ∧
    (dropnaMask (btCols Strategy.macdCross [100, 110]))[0]? = some false := by
  have h := c1_backtest_lag_invariant Strategy.macdCross [100, 110]
    (by norm_num) 1 (by norm_num) (by norm_num)
  refine ⟨h.1 0 100 110 ?_ (by norm_num) (by norm_num), h.2.1, h.2.2⟩
  norm_num [stratSignal, macdLine, macdSignalLine, ewmMean, ewmFrom]

/-- C3 counterexample: a zero-row table whose close column is present is
processed without any failure — the engine returns an empty augmented table
instead of failing, refuting "fails whenever ... the input table has zero
rows; it never silently returns an empty output". -/
theorem c3_counterexample :
    calculate_technical_indicators { dates := [], cols := [("Close", [])] } "Close" =
      .ok { dates := [], origCols := [("Close", [])], RSI := [], MACD := [],
            MACD_Signal := [], MACD_Hist := [], BB_Middle := [], BB_Upper := [],
            BB_Lower := [] } := by
  norm_num [calculate_technical_indicators, lookupCol, rsiSeries, rsSeries, gainSm,
    lossSm, gainRaw, lossRaw, diffL, rollingMean, replaceZeroNaN, macdLine,
    macdSignalLine, macdHist, ewmMean, bbMiddle, bbUpper, bbLower, bbVarS,
    rollingVarS, List.find?]

/-- C3 amended: the indicator engine fails (with the `KeyError` modelling the
`InvalidInput` condition) exactly when the chosen close-price field is absent;
when the field is present it always succeeds — in particular a zero-row input
silently yields a zero-row augmented table rather than a failure. -/
theorem c3_invalid_input (df : PriceTable) (c : String) :
    (lookupCol df.cols c = none →
      calculate_technical_indicators df c = .error .invalidInput) ∧
    (∀ close, lookupCol df.cols c = some close →
      (calculate_technical_indicators df c).isOk = true) := by
  constructor
  · intro h
    rw [calculate_technical_indicators, h]
  · intro close h
    rw [calculate_technical_indicators, h]
    rfl

/-- Witness for C3 at a one-column table missing the requested field and a
present-field table. -/
theorem c3_invalid_input_witness :
    calculate_technical_indicators { dates := [], cols := [("Close", [])] } "Open" =
      .error .invalidInput ∧
    (calculate_technical_indicators { dates := [], cols := [("Close", [])] }
      "Close").isOk = true := by
  constructor
  · exact (c3_invalid_input { dates := [], cols := [("Close", [])] } "Open").1
      (by simp [lookupCol, List.find?])
  · exact (c3_invalid_input { dates := [], cols := [("Close", [])] } "Close").2 []
      (by simp [lookupCol, List.find?])

/-- C4: whenever the row cleaning leaves no rows, the backtest reports the
`InsufficientHistory` condition instead of returning summary statistics. -/
theorem c4_insufficient_history (strat : Strategy) (close : List ℚ) (capital : ℚ)
    (h : cleanedReturns strat close = []) :
    runBacktest close strat capital = .error .insufficientHistory := by
  rw [runBacktest, if_pos h]

/-- Witness for C4 at a one-bar table (its only row has an undefined return
and is dropped). -/
theorem c4_insufficient_history_witness :
    cleanedReturns Strategy.macdCross [5] = [] ∧
    runBacktest [5] Strategy.macdCross 10000 = .error .insufficientHistory := by
  have hcl : cleanedReturns Strategy.macdCross [5] = [] := by
    norm_num [cleanedReturns, btCols, dropnaMask, andMask, someMask, stratSignal,
      stratExtraDef, pctChange, shiftOne, mulSigOpt, cumprodSkip, cumprodFrom,
      filterMask, macdLine, macdSignalLine, ewmMean, ewmFrom]
  exact ⟨hcl, c4_insufficient_history Strategy.macdCross [5] 10000 hcl⟩

/-- C6: at every bar where the 14-bar smoothed loss is exactly `0`, both the
relative strength and the RSI are undefined (`NaN`), not 100 and not
infinite; and the divisor series actually passed to the division (the
zero-scrubbed smoothed loss) never contains a zero value, so the division
is never evaluated with a zero divisor. -/
theorem c6_rsi_zero_loss_guard (close : List ℚ) (t : Nat)
    (h : (lossSm close)[t]? = some (some 0)) :
    (rsSeries close)[t]? = some none ∧ (rsiSeries close)[t]? = some none ∧
    (∀ (i : Nat) (d : Option ℚ),
      (replaceZeroNaN (lossSm close))[i]? = some d → d ≠ some 0) := by
  obtain ⟨h1, h2⟩ := rs_rsi_none_of_loss_zero close t h
  exact ⟨h1, h2, fun i d hd => replaceZeroNaN_getElem?_ne_zero (lossSm close) i d hd⟩

/-- Witness for C6 at a monotonically increasing 15-bar series, whose 14-bar
smoothed loss is exactly `0` at bar 13. -/
theorem c6_rsi_zero_loss_guard_witness :
    (lossSm [1, 2, 3, 4, 5, 6, 7, 8, 9, 10, 11, 12, 13, 14, 15])[13]? =
      some (some 0) ∧
    (rsSeries [1, 2, 3, 4, 5, 6, 7, 8, 9, 10, 11, 12, 13, 14, 15])[13]? = some none ∧
    (rsiSeries [1, 2, 3, 4, 5, 6, 7, 8, 9, 10, 11, 12, 13, 14, 15])[13]? =
      some none := by
  have hl : (lossSm [1, 2, 3, 4, 5, 6, 7, 8, 9, 10, 11, 12, 13, 14, 15])[(13 : Nat)]? =
      some (some 0) := by
    norm_num [lossSm, lossRaw, diffL, rollingMean, List.range_succ]
  have h := c6_rsi_zero_loss_guard [1, 2, 3, 4, 5, 6, 7, 8, 9, 10, 11, 12, 13, 14, 15]
    13 hl
  exact ⟨hl, h.1, h.2.1⟩

/-- C7: at every bar, `MACD_Hist` equals `MACD - MACD_Signal` exactly, where
`MACD` is the span-12 EMA minus the span-26 EMA of close (`adjust=False`)
and `MACD_Signal` is the span-9 EMA of `MACD` — these are the defining
series `macdLine` and `macdSignalLine` of this embedding. -/
theorem c7_macd_hist_identity (close : List ℚ) (t : Nat) (m s : ℚ)
    (hm : (macdLine close)[t]? = some m) (hs : (macdSignalLine close)[t]? = some s) :
    (macdHist close)[t]? = some (m - s) := by
  rw [macdHist, List.getElem?_zipWith, hm, hs]

/-- Witness for C7 at `close = [100, 110]`, `t = 1`. -/
theorem c7_macd_hist_identity_witness :
    (macdHist [100, 110])[1]? = some ((1320 / 13 - 2720 / 27 : ℚ) - 56 / 351) := by
  apply c7_macd_hist_identity [100, 110] 1 (1320 / 13 - 2720 / 27) (56 / 351)
  · norm_num [macdLine, ewmMean, ewmFrom]
  · norm_num [macdSignalLine, macdLine, ewmMean, ewmFrom]

/-- C9: the indicator engine never drops a row: on success the output table
keeps the input's date index and original columns unchanged, and every
derived indicator column has exactly the input close column's row count. -/
theorem c9_output_alignment (df : PriceTable) (c : String) (close : List ℚ)
    (out : IndicatorTable) (hc : lookupCol df.cols c = some close)
    (hok : calculate_technical_indicators df c = .ok out) :
    out.dates = df.dates ∧ out.origCols = df.cols ∧
    out.RSI.length = close.length ∧ out.MACD.length = close.length ∧
    out.MACD_Signal.length = close.length ∧ out.MACD_Hist.length = close.length ∧
    out.BB_Middle.length = close.length ∧ out.BB_Upper.length = close.length ∧
    out.BB_Lower.length = close.length := by
  rw [calculate_technical_indicators, hc] at hok
  injection hok with hout
  rw [← hout]
  refine ⟨rfl, rfl, ?_, ?_, ?_, ?_, ?_, ?_, ?_⟩
  · exact length_rsiSeries close
  · exact length_macdLine close
  · exact length_macdSignalLine close
  · exact length_macdHist close
  · exact length_bbMiddle close
  · exact length_bbUpper close
  · exact length_bbLower close

/-- Witness for C9 at a two-row table. -/
theorem c9_output_alignment_witness :
    (calculate_technical_indicators { dates := [0, 1], cols := [("Close", [3, 4])] }
      "Close").isOk = true ∧
    (∀ out, calculate_technical_indicators { dates := [0, 1], cols := [("Close", [3, 4])] } "Close" = .ok out → out.dates = [0, 1] ∧ out.RSI.length = 2) := by
  constructor
  · rfl
  · intro out hout
    have h := c9_output_alignment { dates := [0, 1], cols := [("Close", [3, 4])] }
      "Close" [3, 4] out (by simp [lookupCol, List.find?]) hout
    exact ⟨h.1, h.2.2.1⟩

/-- C8 counterexample: a 14-bar alternating series (length < 15) already has a
defined RSI at its last bar (the leading `NaN` delta is turned into a zero
gain/loss by the `where(…, 0)` translation, so the 14-bar window fills at
index 13), refuting "for every price series of length < 15, RSI is undefined
at every bar". -/
theorem c8_counterexample :
    ([1, 2, 1, 2, 1, 2, 1, 2, 1, 2, 1, 2, 1, 2] : List ℚ).length < 15 ∧
    (rsiSeries [1, 2, 1, 2, 1, 2, 1, 2, 1, 2, 1, 2, 1, 2])[13]? =
      some (some (700 / 13)) := by
  constructor
  · norm_num
  · norm_num [rsiSeries, rsSeries, gainSm, lossSm, gainRaw, lossRaw, diffL,
      rollingMean, replaceZeroNaN, divOpt, List.range_succ]

/-- C8 amended: for every price series of length < 14 (not 15), RSI is
undefined at every bar; and at every bar where RSI is defined its value lies
in [0, 100]. -/
theorem c8_rsi_window_and_bounds (close : List ℚ) :
    (close.length < 14 → ∀ o ∈ rsiSeries close, o = none) ∧
    (∀ (t : Nat) (v : ℚ), (rsiSeries close)[t]? = some (some v) →
      0 ≤ v ∧ v ≤ 100) := by
  refine ⟨fun h => rsiSeries_all_none_of_short close h, ?_⟩
  intro t v hv
  rw [rsiSeries, List.getElem?_map] at hv
  cases hro : (rsSeries close)[t]? with
  | none => rw [hro] at hv; simp at hv
  | some ro =>
      rw [hro] at hv
      have hmap : ro.map (fun r => 100 - 100 / (1 + r)) = some v := by simpa using hv
      cases ro with
      | none => simp at hmap
      | some r =>
          have hveq : v = 100 - 100 / (1 + r) := by simpa using hmap.symm
          rw [rsSeries, List.getElem?_zipWith] at hro
          cases hg : (gainSm close)[t]? with
          | none => rw [hg] at hro; simp at hro
          | some g0 =>
              cases hl : (replaceZeroNaN (lossSm close))[t]? with
              | none => rw [hg, hl] at hro; simp at hro
              | some l0 =>
                  rw [hg, hl] at hro
                  have hdiv : divOpt g0 l0 = some r := by simpa using hro
                  cases g0 with
                  | none => simp [divOpt] at hdiv
                  | some g =>
                      cases l0 with
                      | none => simp [divOpt] at hdiv
                      | some l =>
                          have hrgl : r = g / l := by simpa [divOpt] using hdiv.symm
                          have hgnn : 0 ≤ g := rollingMean_nonneg 14 (gainRaw close)
                            (gainRaw_nonneg close) t g hg
                          rw [replaceZeroNaN, List.getElem?_map] at hl
                          cases hlo : (lossSm close)[t]? with
                          | none => rw [hlo] at hl; simp at hl
                          | some lo =>
                              rw [hlo] at hl
                              have hbind : lo.bind
                                  (fun w => if w = 0 then none else some w) = some l := by
                                simpa using hl
                              cases lo with
                              | none => simp at hbind
                              | some lv =>
                                  by_cases hlv : lv = 0
                                  · simp [hlv] at hbind
                                  · have hlvl : lv = l := by
                                      simpa [hlv] using hbind
                                    subst hlvl
                                    have hlnn : 0 ≤ lv :=
                                      rollingMean_nonneg 14 (lossRaw close)
                                        (lossRaw_nonneg close) t lv hlo
                                    have hlpos : 0 < lv := lt_of_le_of_ne hlnn (Ne.symm hlv)
                                    have hrnn : 0 ≤ r := by
                                      rw [hrgl]
                                      exact div_nonneg hgnn hlnn
                                    have h1r : (0 : ℚ) < 1 + r := by linarith
                                    have hfr : 0 < 100 / (1 + r) := by positivity
                                    have hfr2 : 100 / (1 + r) ≤ 100 := by
                                      rw [div_le_iff₀ h1r]
                                      nlinarith
                                    constructor
                                    · rw [hveq]; linarith
                                    · rw [hveq]; linarith

/-- Witness for C8: the bounds at the 14-bar alternating series, bar 13. -/
theorem c8_rsi_window_and_bounds_witness :
    0 ≤ (700 : ℚ) / 13 ∧ (700 : ℚ) / 13 ≤ 100 :=
  (c8_rsi_window_and_bounds [1, 2, 1, 2, 1, 2, 1, 2, 1, 2, 1, 2, 1, 2]).2 13 (700 / 13)
    (by norm_num [rsiSeries, rsSeries, gainSm, lossSm, gainRaw, lossRaw, diffL,
      rollingMean, replaceZeroNaN, divOpt, List.range_succ])

/-- C5 counterexample: on a two-bar table the cleaned return series has a
single row, whose sample standard deviation is `NaN` (ddof = 1); the guard
`std != 0` is `True` for `NaN`, so the reported market Sharpe is `NaN` —
refuting "neither infinity nor NaN ever propagates into the reported Sharpe
value". -/
theorem c5_counterexample :
    btSharpeMarket? (runBacktest [100, 110] Strategy.macdCross 10000) =
      some SharpeResult.nan := by
  have hok : runBacktest [100, 110] Strategy.macdCross 10000 =
      .ok ⟨[11/10], [1], 10, 0, 11000, 10000, .nan, .nan, 0, 0⟩ := by
    norm_num [runBacktest, cleanedReturns, cleanedStratRet, cleanedCumMarket,
      cleanedCumStrat, btCols, dropnaMask, andMask, someMask, stratSignal,
      stratExtraDef, pctChange, shiftOne, mulSigOpt, cumprodSkip, cumprodFrom,
      filterMask, sampleVar, meanQ, ewmMean, ewmFrom, macdLine, macdSignalLine,
      sharpeOf, maxDrawdownPct, listMin, runningMax, runMaxFrom]
  rw [hok]
  rfl

/-- C5 amended: over the cleaned return series, the reported Sharpe is the
annualized ratio `(mean/std)·√252` (carried as its defining pair
`(mean, variance)`) when the sample variance is defined and nonzero, and
exactly `0` when the variance is exactly `0`; but when the cleaned series has
exactly one row the sample standard deviation is `NaN` and the reported
Sharpe is `NaN` as well. -/
theorem c5_sharpe_policy (strat : Strategy) (close : List ℚ) (capital : ℚ)
    (res : BacktestResult) (hok : runBacktest close strat capital = .ok res) :
    ((cleanedReturns strat close).length = 1 → res.sharpeMarket = SharpeResult.nan) ∧
    (sampleVar (cleanedReturns strat close) = some 0 →
      res.sharpeMarket = SharpeResult.zero) ∧
    (∀ v, sampleVar (cleanedReturns strat close) = some v → v ≠ 0 →
      res.sharpeMarket = SharpeResult.annualized (meanQ (cleanedReturns strat close)) v) ∧
    ((cleanedStratRet strat close).length = 1 →
      res.sharpeStrategy = SharpeResult.nan) ∧
    (sampleVar (cleanedStratRet strat close) = some 0 →
      res.sharpeStrategy = SharpeResult.zero) ∧
    (∀ v, sampleVar (cleanedStratRet strat close) = some v → v ≠ 0 →
      res.sharpeStrategy = SharpeResult.annualized (meanQ (cleanedStratRet strat close)) v) := by
  rw [runBacktest] at hok
  by_cases hg : cleanedReturns strat close = []
  · rw [if_pos hg] at hok
    exact absurd hok (by simp)
  · rw [if_neg hg] at hok
    injection hok with hres
    rw [← hres]
    refine ⟨?_, ?_, ?_, ?_, ?_, ?_⟩
    · intro hlen
      have hvar : sampleVar (cleanedReturns strat close) = none := by
        rw [sampleVar, if_pos (by omega)]
      show sharpeOf (cleanedReturns strat close) = SharpeResult.nan
      rw [sharpeOf, hvar]
    · intro hvar
      show sharpeOf (cleanedReturns strat close) = SharpeResult.zero
      rw [sharpeOf, hvar]
      simp
    · intro v hvar hne
      show sharpeOf (cleanedReturns strat close) =
        SharpeResult.annualized (meanQ (cleanedReturns strat close)) v
      rw [sharpeOf, hvar]
      simp [hne]
    · intro hlen
      have hvar : sampleVar (cleanedStratRet strat close) = none := by
        rw [sampleVar, if_pos (by omega)]
      show sharpeOf (cleanedStratRet strat close) = SharpeResult.nan
      rw [sharpeOf, hvar]
    · intro hvar
      show sharpeOf (cleanedStratRet strat close) = SharpeResult.zero
      rw [sharpeOf, hvar]
      simp
    · intro v hvar hne
      show sharpeOf (cleanedStratRet strat close) =
        SharpeResult.annualized (meanQ (cleanedStratRet strat close)) v
      rw [sharpeOf, hvar]
      simp [hne]

/-- Witness for C5 at `close = [100, 110, 121]`, MACD strategy: the cleaned
market returns are the flat series `[1/10, 1/10]` (variance exactly `0`), so
the reported market Sharpe is the guarded `0`. -/
theorem c5_sharpe_policy_witness :
    runBacktest [100, 110, 121] Strategy.macdCross 1000 =
      .ok ⟨[11/10, 121/100], [1, 11/10], 21, 10, 1210, 1100, .zero,
        .annualized (1/20) (1/200), 0, 0⟩ ∧
    (⟨[11/10, 121/100], [1, 11/10], 21, 10, 1210, 1100, .zero,
        .annualized (1/20) (1/200), 0, 0⟩ : BacktestResult).sharpeMarket =
      SharpeResult.zero := by
  have hok : runBacktest [100, 110, 121] Strategy.macdCross 1000 =
      .ok ⟨[11/10, 121/100], [1, 11/10], 21, 10, 1210, 1100, .zero,
        .annualized (1/20) (1/200), 0, 0⟩ := by
    norm_num [runBacktest, cleanedReturns, cleanedStratRet, cleanedCumMarket,
      cleanedCumStrat, btCols, dropnaMask, andMask, someMask, stratSignal,
      stratExtraDef, pctChange, shiftOne, mulSigOpt, cumprodSkip, cumprodFrom,
      filterMask, sampleVar, meanQ, ewmMean, ewmFrom, macdLine, macdSignalLine,
      sharpeOf, maxDrawdownPct, listMin, runningMax, runMaxFrom]
    intro h
    exact absurd h (List.cons_ne_nil _ _)
  refine ⟨hok, ?_⟩
  apply (c5_sharpe_policy Strategy.macdCross [100, 110, 121] 1000 _ hok).2.1
  norm_num [cleanedReturns, btCols, dropnaMask, andMask, someMask, stratSignal,
    stratExtraDef, pctChange, shiftOne, mulSigOpt, cumprodSkip, cumprodFrom,
    filterMask, sampleVar, meanQ, ewmMean, ewmFrom, macdLine, macdSignalLine]

/-- C2 counterexample: on a 15-bar table with the RSI strategy, only bars 13
and 14 survive `dropna()`, yet the reported market equity at the first
retained bar is `3/2` — the cumulative product over ALL bars up to 13
(computed before the rows were dropped) — whereas the curve the claim
describes (drop rows first, then re-base the running product to 1.0 at the
first retained bar) is `[1/2, 1]`.  The code's curve is not re-based at the
first retained bar. -/
theorem c2_counterexample :
    btCumMarket? (runBacktest
      [100, 300, 300, 300, 300, 300, 300, 300, 300, 300, 300, 300, 300, 150, 300]
      Strategy.rsiMeanRev 10000) = some [3/2, 3] ∧
    specRebasedMarketCurve Strategy.rsiMeanRev
      [100, 300, 300, 300, 300, 300, 300, 300, 300, 300, 300, 300, 300, 150, 300] =
      [1/2, 1] ∧
    ([3/2, 3] : List ℚ) ≠ [1/2, 1] := by
  refine ⟨?_, ?_, by norm_num⟩
  · norm_num [runBacktest, cleanedReturns, cleanedStratRet, cleanedCumMarket,
      cleanedCumStrat, btCols, dropnaMask, andMask, someMask, stratSignal,
      stratExtraDef, pctChange, shiftOne, mulSigOpt, cumprodSkip, cumprodFrom,
      filterMask, rollingMean, sampleVar, meanQ, rsiSeries, rsSeries, gainSm, lossSm,
      gainRaw, lossRaw, diffL, replaceZeroNaN, divOpt, ltOptC, gtOptC, sharpeOf,
      maxDrawdownPct, listMin, runningMax, runMaxFrom, List.range_succ]
    rw [if_neg (List.cons_ne_nil _ _)]
    rfl
  · norm_num [specRebasedMarketCurve, cumprodStrict, cleanedReturns, btCols,
      dropnaMask, andMask, someMask, stratSignal, stratExtraDef, pctChange, shiftOne,
      mulSigOpt, cumprodSkip, cumprodFrom, filterMask, rollingMean, rsiSeries,
      rsSeries, gainSm, lossSm, gainRaw, lossRaw, diffL, replaceZeroNaN, divOpt,
      ltOptC, gtOptC, List.range_succ]

/-- C2 amended: the cumulative equity curves are computed over the FULL series
before any row is dropped: the full-series market curve at every bar `t ≥ 1`
equals `close(t)/close(0)` (the running product of `1 + return` over all bars
up to `t`, based at the start of the full series, not at the first retained
bar), and the reported curves are the row-mask restrictions of those
pre-drop curves. -/
theorem c2_curves_before_dropna (strat : Strategy) (close : List ℚ) (capital : ℚ)
    (res : BacktestResult) (hpos : ∀ c ∈ close, 0 < c)
    (hok : runBacktest close strat capital = .ok res) :
    (∀ (t : Nat) (c0 ct : ℚ), 1 ≤ t → close[0]? = some c0 → close[t]? = some ct →
      (btCols strat close).cumMarket[t]? = some (some (ct / c0))) ∧
    res.cumMarket = (filterMask (dropnaMask (btCols strat close))
      (btCols strat close).cumMarket).reduceOption ∧
    res.cumStrat = (filterMask (dropnaMask (btCols strat close))
      (btCols strat close).cumStrat).reduceOption := by
  refine ⟨fun t c0 ct h1 hc0 hct =>
    cumMarket_value strat close hpos t h1 c0 ct hc0 hct, ?_, ?_⟩
  all_goals
    rw [runBacktest] at hok
    by_cases hg : cleanedReturns strat close = []
  · rw [if_pos hg] at hok
    exact absurd hok (by simp)
  · rw [if_neg hg] at hok
    injection hok with hres
    rw [← hres]
    rfl
  · rw [if_pos hg] at hok
    exact absurd hok (by simp)
  · rw [if_neg hg] at hok
    injection hok with hres
    rw [← hres]
    rfl

/-- Witness for C2 at `close = [100, 110]`, MACD strategy. -/
theorem c2_curves_before_dropna_witness :
    runBacktest [100, 110] Strategy.macdCross 1000 =
      .ok ⟨[11/10], [1], 10, 0, 1100, 1000, .nan, .nan, 0, 0⟩ ∧
    (btCols Strategy.macdCross [100, 110]).cumMarket[1]? =
      some (some ((110 : ℚ) / 100)) := by
  have hok : runBacktest [100, 110] Strategy.macdCross 1000 =
      .ok ⟨[11/10], [1], 10, 0, 1100, 1000, .nan, .nan, 0, 0⟩ := by
    norm_num [runBacktest, cleanedReturns, cleanedStratRet, cleanedCumMarket,
      cleanedCumStrat, btCols, dropnaMask, andMask, someMask, stratSignal,
      stratExtraDef, pctChange, shiftOne, mulSigOpt, cumprodSkip, cumprodFrom,
      filterMask, sampleVar, meanQ, ewmMean, ewmFrom, macdLine, macdSignalLine,
      sharpeOf, maxDrawdownPct, listMin, runningMax, runMaxFrom]
  refine ⟨hok, ?_⟩
  exact (c2_curves_before_dropna Strategy.macdCross [100, 110] 1000 _
    (by norm_num) hok).1 1 100 110 (le_refl 1) (by norm_num) (by norm_num)

/-- C10: for both reported equity curves, the reported max drawdown
percentage is always ≤ 0, and it equals 0 exactly when the corresponding
cleaned cumulative curve is non-decreasing throughout. -/
theorem c10_max_drawdown (strat : Strategy) (close : List ℚ) (capital : ℚ)
    (res : BacktestResult) (hpos : ∀ c ∈ close, 0 < c)
    (hok : runBacktest close strat capital = .ok res) :
    (res.maxDrawdownMarket ≤ 0 ∧
      (res.maxDrawdownMarket = 0 ↔ nonDecB res.cumMarket = true)) ∧
    (res.maxDrawdownStrategy ≤ 0 ∧
      (res.maxDrawdownStrategy = 0 ↔ nonDecB res.cumStrat = true)) := by
  rw [runBacktest] at hok
  by_cases hg : cleanedReturns strat close = []
  · rw [if_pos hg] at hok
    exact absurd hok (by simp)
  · rw [if_neg hg] at hok
    injection hok with hres
    rw [← hres]
    constructor
    · show maxDrawdownPct (cleanedCumMarket strat close) ≤ 0 ∧
        (maxDrawdownPct (cleanedCumMarket strat close) = 0 ↔
          nonDecB (cleanedCumMarket strat close) = true)
      have hne := cleanedCumMarket_nonempty strat close hg
      obtain ⟨q, tl, hq⟩ : ∃ q tl, cleanedCumMarket strat close = q :: tl := by
        cases hcase : cleanedCumMarket strat close with
        | nil => exact absurd hcase hne
        | cons a b => exact ⟨a, b, rfl⟩
      have hqpos : 0 < q := by
        apply cleanedCumMarket_pos strat close hpos q
        rw [hq]
        exact List.mem_cons_self _ _
      rw [hq]
      exact maxDrawdownPct_spec q tl hqpos
    · show maxDrawdownPct (cleanedCumStrat strat close) ≤ 0 ∧
        (maxDrawdownPct (cleanedCumStrat strat close) = 0 ↔
          nonDecB (cleanedCumStrat strat close) = true)
      obtain ⟨tl, htl⟩ := cleanedCumStrat_head strat close
        (filter_cumStrat_nonempty strat close hg)
      rw [htl]
      exact maxDrawdownPct_spec 1 tl one_pos

/-- Witness for C10 at `close = [100, 110]`, MACD strategy: both drawdowns
are `0` and both one-bar curves are non-decreasing. -/
theorem c10_max_drawdown_witness :
    ((0 : ℚ) ≤ 0 ∧ ((0 : ℚ) = 0 ↔ nonDecB [11/10] = true)) ∧
    ((0 : ℚ) ≤ 0 ∧ ((0 : ℚ) = 0 ↔ nonDecB [1] = true)) := by
  have hok : runBacktest [100, 110] Strategy.macdCross 1000 =
      .ok ⟨[11/10], [1], 10, 0, 1100, 1000, .nan, .nan, 0, 0⟩ := by
    norm_num [runBacktest, cleanedReturns, cleanedStratRet, cleanedCumMarket,
      cleanedCumStrat, btCols, dropnaMask, andMask, someMask, stratSignal,
      stratExtraDef, pctChange, shiftOne, mulSigOpt, cumprodSkip, cumprodFrom,
      filterMask, sampleVar, meanQ, ewmMean, ewmFrom, macdLine, macdSignalLine,
      sharpeOf, maxDrawdownPct, listMin, runningMax, runMaxFrom]
  exact c10_max_drawdown Strategy.macdCross [100, 110] 1000 _ (by norm_num) hok
